import Mathlib

/-!
# Verification of Opentype_Tools core algorithms

Shallow embedding of the feature-detection, rule-synthesis, merge/deduplication
and stylistic-set identifier-resolution algorithms of the Opentype_Tools
repository (`Opentype_FeaturesGeneratorEnhanced.py`, `lib/detection.py`,
`lib/feature_generation.py`, `lib/feature_extraction.py`), together with
proofs and refutations of the specified properties.

Glyph names, feature-file lines and labels are modelled as `List Char` or
`String`; Python sets used only for membership are modelled as lists with
membership tests; Python dicts are modelled as association lists.
-/

namespace OTTools

/-! ## ExistingBehaviorIndex and MergeFilter
    (`FontProcessor._filter_against_existing`,
     `ExistingSubstitutionExtractor.extract_all`) -/

/-- Result of `ExistingSubstitutionExtractor.extract_all`: the set of realized
ligature component tuples and the set of realized (input, output) single
substitution pairs, modelled as lists used only for membership tests. -/
structure ExistingSubs where
  ligatures : List (List String)
  single : List (String × String)
deriving Repr

/-- The `detected` dictionary handed to `FontProcessor._filter_against_existing`.
Each Python dict key that the function probes with `in` is an `Option` field
(`none` models key absence).  `frac` carries its `isinstance(frac_data, dict)`
test through an inductive value. -/
inductive FracData where
  | dictVal (numerators denominators : List (String × String)) : FracData
  | otherVal : FracData
deriving Repr, DecidableEq

structure DetectedFeatures where
  liga : Option (List (List String × String)) := none
  dlig : Option (List (List String × String)) := none
  smcp : Option (List (String × String)) := none
  onum : Option (List (String × String)) := none
  lnum : Option (List (String × String)) := none
  tnum : Option (List (String × String)) := none
  pnum : Option (List (String × String)) := none
  swsh : Option (List (String × String)) := none
  calt : Option (List (String × String)) := none
  sups : Option (List (String × String)) := none
  subs : Option (List (String × String)) := none
  ordn : Option (List (String × String)) := none
  c2sc : Option (List (String × String)) := none
  salt : Option (List (String × String)) := none
  zero : Option (List (String × String)) := none
  case : Option (List (String × String)) := none
  titl : Option (List (String × String)) := none
  numr : Option (List (String × String)) := none
  dnom : Option (List (String × String)) := none
  sinf : Option (List (String × String)) := none
  hist : Option (List (String × String)) := none
  frac : Option FracData := none
  stylistic_sets : Option (List (Nat × List (String × String))) := none
deriving Repr

/-- Output of `_filter_against_existing` (every key present). -/
structure FilteredFeatures where
  liga : List (List String × String)
  dlig : List (List String × String)
  smcp : List (String × String)
  onum : List (String × String)
  lnum : List (String × String)
  tnum : List (String × String)
  pnum : List (String × String)
  swsh : List (String × String)
  calt : List (String × String)
  sups : List (String × String)
  subs : List (String × String)
  ordn : List (String × String)
  c2sc : List (String × String)
  zero : List (String × String)
  salt : List (String × String)
  case : List (String × String)
  titl : List (String × String)
  numr : List (String × String)
  dnom : List (String × String)
  sinf : List (String × String)
  hist : List (String × String)
  fracNumerators : List (String × String)
  fracDenominators : List (String × String)
  stylistic_sets : List (Nat × List (String × String))
deriving Repr

/-- Filtering of one ligature list: keep a candidate unless its component
tuple is already in `existing_ligatures`. -/
def filterLigList (ex : List (List String)) (l : Option (List (List String × String))) :
    List (List String × String) :=
  match l with
  | none => []
  | some cands => cands.filter (fun c => ¬ ex.contains c.1)

/-- Filtering of one pairwise list: keep a candidate unless its
(input, output) pair is already in `existing_single`. -/
def filterPairList (ex : List (String × String)) (l : Option (List (String × String))) :
    List (String × String) :=
  match l with
  | none => []
  | some cands => cands.filter (fun c => ¬ ex.contains c)

/-- `FontProcessor._filter_against_existing`. -/
def filter_against_existing (detected : DetectedFeatures) (existing : ExistingSubs) :
    FilteredFeatures :=
  let exL := existing.ligatures
  let exS := existing.single
  { liga := filterLigList exL detected.liga
    dlig := filterLigList exL detected.dlig
    smcp := filterPairList exS detected.smcp
    onum := filterPairList exS detected.onum
    lnum := filterPairList exS detected.lnum
    tnum := filterPairList exS detected.tnum
    pnum := filterPairList exS detected.pnum
    swsh := filterPairList exS detected.swsh
    calt := filterPairList exS detected.calt
    sups := filterPairList exS detected.sups
    subs := filterPairList exS detected.subs
    ordn := filterPairList exS detected.ordn
    c2sc := filterPairList exS detected.c2sc
    salt := filterPairList exS detected.salt
    zero := filterPairList exS detected.zero
    case := filterPairList exS detected.case
    titl := filterPairList exS detected.titl
    numr := filterPairList exS detected.numr
    dnom := filterPairList exS detected.dnom
    sinf := filterPairList exS detected.sinf
    hist := filterPairList exS detected.hist
    fracNumerators :=
      match detected.frac with
      | some (FracData.dictVal nums _) => nums.filter (fun c => ¬ exS.contains c)
      | some FracData.otherVal => []
      | none => []
    fracDenominators :=
      match detected.frac with
      | some (FracData.dictVal _ dens) => dens.filter (fun c => ¬ exS.contains c)
      | some FracData.otherVal => []
      | none => []
    stylistic_sets :=
      match detected.stylistic_sets with
      | none => []
      | some ss =>
          ss.filterMap (fun g =>
            let kept := g.2.filter (fun c => ¬ exS.contains c)
            if kept = [] then none else some (g.1, kept)) }

/-! ## Ligature detection
    (`GlyphPatternDetector._parse_ligature_components` /
     `UnifiedGlyphDetector._parse_ligature_components` — the two copies are
     line-for-line identical, one embedding covers both) -/

/-- Glyph names at character level. -/
abbrev GName := List Char

/-- The font data the glyph detectors read: the glyph-name universe
(`set(font.getGlyphOrder())`), the best cmap (codepoint → glyph name), and
the set of two-letter names whose AGL Unicode value is a single precomposed
LIGATURE character (external `fontTools.agl.toUnicode` + `unicodedata.name`
data, supplied as a finite table). -/
structure DetectFont where
  glyph_order : List GName
  best_cmap : List (Nat × GName)
  precomposedLig : List GName
deriving Repr

/-- `best_cmap.get(codepoint)`. -/
def cmapGet (f : DetectFont) (cp : Nat) : Option GName :=
  (f.best_cmap.find? (fun e => e.1 = cp)).map Prod.snd

/-- Membership in `best_cmap.values()`. -/
def inCmapImage (f : DetectFont) (g : GName) : Bool :=
  (f.best_cmap.map Prod.snd).contains g

/-- Python `base.split("_")` (keeps empty pieces). -/
def splitUnd : GName → List GName
  | [] => [[]]
  | c :: t =>
      if c = '_' then [] :: splitUnd t
      else
        match splitUnd t with
        | h :: r => (c :: h) :: r
        | [] => [[c]]

/-- Value of one hexadecimal digit. -/
def hexDigitVal (c : Char) : Option Nat :=
  if '0' ≤ c ∧ c ≤ '9' then some (c.toNat - '0'.toNat)
  else if 'a' ≤ c ∧ c ≤ 'f' then some (c.toNat - 'a'.toNat + 10)
  else if 'A' ≤ c ∧ c ≤ 'F' then some (c.toNat - 'A'.toNat + 10)
  else none

/-- Python `int(hex_part, 16)` on the four-character slice (failure = `ValueError`). -/
def hexParse (s : GName) : Option Nat :=
  s.foldl (fun acc c =>
    match acc, hexDigitVal c with
    | some v, some d => some (16 * v + d)
    | _, _ => none) (some 0)

/-- The component-resolution loop of `_parse_ligature_components`: `uniHHHH`
tokens resolve through the cmap, other tokens must be existing glyph names;
any failure aborts the whole candidate (Python `return []`). -/
def resolveParts (f : DetectFont) : List GName → Option (List GName)
  | [] => some []
  | p :: rest =>
      if ("uni".toList.isPrefixOf p ∧ 7 ≤ p.length : Prop) then
        match hexParse ((p.drop 3).take 4) with
        | none => none
        | some cp =>
            match cmapGet f cp with
            | none => none
            | some g => (resolveParts f rest).map (g :: ·)
      else if f.glyph_order.contains p then (resolveParts f rest).map (p :: ·)
      else none

/-- Final acceptance of `_parse_ligature_components`: `≥ 2` components, and
the half-threshold guard.  The source tests `valid_components < len(resolved) / 2`
in real (float) arithmetic; on naturals that comparison is exactly
`2 * valid_components < len(resolved)` (the rational-form equivalence is
certified alongside the numerical-threshold theorem below). -/
def acceptResolved (f : DetectFont) (resolved : List GName) : List GName :=
  if resolved.length < 2 then []
  else
    let valid := (resolved.filter (inCmapImage f)).length
    if 2 * valid < resolved.length then [] else resolved

/-- `_parse_ligature_components(glyph_name)`: returns the resolved component
list, or `[]` when the name is not accepted as a ligature. -/
def parse_ligature_components (f : DetectFont) (glyph_name : GName) : List GName :=
  let base := glyph_name.takeWhile (· ≠ '.')
  let parts? : Option (List GName) :=
    if base.contains '_' then some (splitUnd base)
    else if (base.length = 2 ∧ base.all Char.isAlpha : Prop) then
      if f.precomposedLig.contains base then none
      else
        let p1 := base.take 1
        let p2 := (base.drop 1).take 1
        if (f.glyph_order.contains p1 ∧ f.glyph_order.contains p2 : Prop) then
          some [p1, p2]
        else none
    else none
  match parts? with
  | none => []
  | some parts =>
      match resolveParts f parts with
      | none => []
      | some resolved => acceptResolved f resolved

/-- `GlyphPatternDetector._detect_ligatures`: collect `(components, glyph)` for
every glyph whose name parses as a ligature. -/
def detect_ligatures (f : DetectFont) : List (List GName × GName) :=
  f.glyph_order.filterMap (fun g =>
    let comps := parse_ligature_components f g
    if comps = [] then none else some (comps, g))

/-! ## Ordinal rule synthesis
    (`FeatureCodeGenerator.generate_ordn_feature` — identical in
     `lib/feature_generation.py` and the enhanced generator) -/

/-- One emitted line of the `ordn` feature block, with the f-string payloads
kept structurally. -/
inductive OrdnLine where
  | header : OrdnLine
  | commentA : OrdnLine
  | commentB : OrdnLine
  | simpleSub (base variant : GName) : OrdnLine
  | contextualSub (numberGlyphs : List GName) (base variant : GName) : OrdnLine
  | footer : OrdnLine
deriving Repr, DecidableEq

/-- The probed canonical digit glyph names. -/
def base_numbers : List GName :=
  ["zero", "one", "two", "three", "four", "five", "six", "seven", "eight",
    "nine"].map String.toList

/-- Figure-variant suffixes probed when the bare digit name is absent. -/
def figureSuffixes : List GName :=
  [".oldstyle", ".lining", ".onum", ".lnum"].map String.toList

/-- Probe one digit name against the glyph order (bare name first, then each
suffix in order, first hit wins). -/
def findNumberGlyph (order : List GName) (num : GName) : Option GName :=
  if order.contains num then some num
  else figureSuffixes.findSome? (fun suf =>
    if order.contains (num ++ suf) then some (num ++ suf) else none)

/-- The `number_glyphs` class built from a font's glyph order. -/
def buildNumberGlyphs (order : List GName) : List GName :=
  base_numbers.filterMap (findNumberGlyph order)

/-- The fixed closed ordinal letter set (compared against `base.lower()`). -/
def ordnLetters : List GName := ["a", "o", "n", "h", "r", "t", "s"].map String.toList

/-- Python `base.lower()` (ASCII suffices for the names involved). -/
def lowerName (g : GName) : GName := g.map Char.toLower

/-- `generate_ordn_feature(substitutions, font)`; `font = none` is the
no-font call (hard-coded digit list), `font = some order` supplies the glyph
universe.  An empty substitution list returns the empty block (Python `""`). -/
def ordnBody (number_glyphs : List GName) (substitutions : List (GName × GName)) :
    List OrdnLine :=
  if number_glyphs = [] then
    substitutions.map (fun s => OrdnLine.simpleSub s.1 s.2)
  else
    substitutions.filterMap (fun s =>
      if ordnLetters.contains (lowerName s.1) then
        some (OrdnLine.contextualSub number_glyphs s.1 s.2)
      else none)

def generate_ordn_feature (substitutions : List (GName × GName))
    (font : Option (List GName)) : List OrdnLine :=
  if substitutions = [] then []
  else
    let number_glyphs :=
      match font with
      | some order => buildNumberGlyphs order
      | none => base_numbers
    [OrdnLine.header, OrdnLine.commentA, OrdnLine.commentB] ++
      ordnBody number_glyphs substitutions ++ [OrdnLine.footer]

/-! ## Text-level deduplication of feature code
    (`FontProcessor._deduplicate_fea_code`)

Lines are `List Char`.  The guard checks `strip`, `startswith("sub ")`,
`" by " in`, `endswith(";")`, then matches the original line against the
regex `^\s*sub\s+(.+?)\s+by\s+(.+?);` with Python backtracking semantics:
`\s*`/the first `\s+` are greedy (longer runs preferred), the two `(.+?)`
groups lazy (shorter preferred), `.` does not match a newline. -/

/-- Python regex `\s` (ASCII range). -/
def isSpacePy (c : Char) : Bool :=
  c = ' ' ∨ c = '\t' ∨ c = '\n' ∨ c = '\r' ∨ c = Char.ofNat 11 ∨ c = Char.ofNat 12

/-- Python `str.strip()`. -/
def stripPy (s : List Char) : List Char :=
  ((s.dropWhile isSpacePy).reverse.dropWhile isSpacePy).reverse

/-- Generic single-character split, keeping empty pieces (Python
`s.split(sep)` for a one-character separator). -/
def splitOnChar (sep : Char) : List Char → List (List Char)
  | [] => [[]]
  | c :: t =>
      if c = sep then [] :: splitOnChar sep t
      else
        match splitOnChar sep t with
        | h :: r => (c :: h) :: r
        | [] => [[c]]

/-- Python `re.sub(r"\s+", " ", s)`: collapse runs of whitespace to one space. -/
def normalizeWsAux : Bool → List Char → List Char
  | _, [] => []
  | prevSpace, c :: t =>
      if isSpacePy c then
        if prevSpace then normalizeWsAux true t
        else ' ' :: normalizeWsAux true t
      else c :: normalizeWsAux false t

def normalizeWs (s : List Char) : List Char := normalizeWsAux false s

/-- `[n, n-1, ..., 1]`: the candidate lengths of a greedy quantifier. -/
def descRange (n : Nat) : List Nat := (List.range n).map (fun i => n - i)

/-- Matching `\s+by\s+(.+?);` against the text following group 1.
The run before `by` is exactness-forced to its maximal length (backtracking
to a shorter run would place a whitespace character where `b` is required);
the run after `by` backtracks from its maximal length downwards; group 2 is
lazy, i.e. ends at the first `;`. -/
def matchTail (u : List Char) : Option (List Char) :=
  let w2 := (u.takeWhile isSpacePy).length
  if w2 = 0 then none
  else
    let u2 := u.drop w2
    if "by".toList.isPrefixOf u2 then
      let u3 := u2.drop 2
      let w3max := (u3.takeWhile isSpacePy).length
      (descRange w3max).findSome? (fun w3 =>
        let v := u3.drop w3
        let g2 := v.takeWhile (fun c => ¬ (c = ';' ∨ c = '\n'))
        if 1 ≤ g2.length ∧ (v.drop g2.length).head? = some ';' then some g2
        else none)
    else none

/-- `re.match(r"^\s*sub\s+(.+?)\s+by\s+(.+?);", line)`, returning the two
groups.  `\s*` is exactness-forced maximal (the following literal `s` is not
whitespace); the first `\s+` backtracks from maximal downwards; group 1 is
lazy and ranges over newline-free segments. -/
def matchSubRegex (line : List Char) : Option (List Char × List Char) :=
  let rest0 := line.dropWhile isSpacePy
  if "sub".toList.isPrefixOf rest0 then
    let s := rest0.drop 3
    let w1max := (s.takeWhile isSpacePy).length
    (descRange w1max).findSome? (fun w1 =>
      let t := s.drop w1
      (List.range t.length).findSome? (fun i =>
        let g1 := t.take (i + 1)
        if g1.all (fun c => c ≠ '\n') then
          (matchTail (t.drop (i + 1))).map (fun g2 => (g1, g2))
        else none))
  else none

/-- Python `needle in hay` for character lists. -/
def isSubstring (needle : List Char) : List Char → Bool
  | [] => needle.isPrefixOf []
  | c :: t => needle.isPrefixOf (c :: t) || isSubstring needle t

/-- The dedup key of one line: `none` when the line is not treated (guard or
regex fails), otherwise the normalized whitespace-split input components of
group 1. -/
def lineKey (line : List Char) : Option (List (List Char)) :=
  let stripped := stripPy line
  if ("sub ".toList.isPrefixOf stripped ∧ isSubstring " by ".toList stripped ∧
      [';'].isSuffixOf stripped : Prop) then
    match matchSubRegex line with
    | some g => some (splitOnChar ' ' (normalizeWs (stripPy g.1)))
    | none => none
  else none

/-- The line loop of `_deduplicate_fea_code`: drop a line whose key was
already seen, otherwise keep it and record its key. -/
def dedupAux (seen : List (List (List Char))) :
    List (List Char) → List (List Char) × List (List (List Char))
  | [] => ([], seen)
  | line :: rest =>
      match lineKey line with
      | some k =>
          if seen.contains k then dedupAux seen rest
          else
            let r := dedupAux (k :: seen) rest
            (line :: r.1, r.2)
      | none =>
          let r := dedupAux seen rest
          (line :: r.1, r.2)

/-- `FontProcessor._deduplicate_fea_code` on the split line list: returns the
deduplicated lines and the extracted ligature sequences (seen component
tuples of length ≥ 2).  The surrounding `"\n".split` / `"\n".join` of the
source is the `splitOnChar '\n'` / `List.intercalate` pair. -/
def deduplicate_fea_code (lines : List (List Char)) :
    List (List Char) × List (List (List Char)) :=
  let r := dedupAux [] lines
  (r.1, r.2.filter (fun k => 2 ≤ k.length))

/-- The whole-string version (split on newlines, dedup, join). -/
def deduplicate_fea_string (fea : List Char) : List Char :=
  List.intercalate ['\n'] (deduplicate_fea_code (splitOnChar '\n' fea)).1

/-! ## Contextual-alternate and stylistic-alternate (salt) classification
    (`UnifiedGlyphDetector.CALT_PATTERN` / `_check_contextual_alternate`,
     `GlyphPatternDetector._detect_contextual_alternates` and
     `GlyphPatternDetector._detect_stylistic_alternates`; glyph names are
     newline-free) -/

/-- Matching `\.(calt|alt)(\d+)?$` against the rest of a name after a split
point: the alternation prefers `calt`, the optional digit group must reach
the end of the name. -/
def suffixAltMatch (rest : GName) : Option (List Char × Option (List Char)) :=
  match rest with
  | '.' :: t =>
      if "calt".toList.isPrefixOf t then
        let d := t.drop 4
        if d = [] then some ("calt".toList, none)
        else if d.all Char.isDigit then some ("calt".toList, some d)
        else none
      else if "alt".toList.isPrefixOf t then
        let d := t.drop 3
        if d = [] then some ("alt".toList, none)
        else if d.all Char.isDigit then some ("alt".toList, some d)
        else none
      else none
  | _ => none

/-- The greedy `(.+)` of `^(.+)\.(calt|alt)(\d+)?$`: try the longest base
first, i.e. split points `n, n-1, ..., 1`. -/
def caltSearch (g : GName) : Nat → Option (GName × List Char × Option (List Char))
  | 0 => none
  | i + 1 =>
      match suffixAltMatch (g.drop (i + 1)) with
      | some kd => some (g.take (i + 1), kd.1, kd.2)
      | none => caltSearch g i

/-- `CALT_PATTERN.match(glyph_name)` giving (base, calt|alt, optional digits). -/
def caltMatch (g : GName) : Option (GName × List Char × Option (List Char)) :=
  caltSearch g (g.length - 1)

/-- `GlyphPatternDetector._detect_contextual_alternates` (identical in effect
to `UnifiedGlyphDetector._check_contextual_alternate` over the universe). -/
def detect_contextual_alternates (order : List GName) : List (GName × GName) :=
  order.filterMap (fun g =>
    match caltMatch g with
    | some m => if order.contains m.1 then some (m.1, g) else none
    | none => none)

/-- The salt suffix list `PHASE1_FEATURE_PATTERNS["salt"]`. -/
def saltPatterns : List GName := [".alt", ".alt01", ".alt02"].map String.toList

/-- The inner pattern loop of `_detect_stylistic_alternates`, with the
source's exact break/fall-through structure: plain `.alt` defers to calt
(break without appending), a digit-suffixed match is appended, a name not
matching the calt pattern at all is appended, a base missing from the
universe falls through to the next pattern. -/
def saltLoop (order : List GName) (g : GName) : List GName → Option (GName × GName)
  | [] => none
  | pat :: rest =>
      if pat.isSuffixOf g then
        let base := g.take (g.length - pat.length)
        if order.contains base then
          match caltMatch g with
          | some m =>
              match m.2.2 with
              | none => if pat = ".alt".toList then none else saltLoop order g rest
              | some _ => some (base, g)
          | none => some (base, g)
        else saltLoop order g rest
      else saltLoop order g rest

/-- `GlyphPatternDetector._detect_stylistic_alternates`. -/
def detect_stylistic_alternates (order : List GName) : List (GName × GName) :=
  order.filterMap (fun g => saltLoop order g saltPatterns)

/-! ## Stylistic-set audit and repair
    (`audit_and_repair_stylistic_sets`, `NameIDResolver`, `FeatureParamsFixer`,
     `AuditNameTableManager` and the name-table helpers)

The name table is modelled as the Windows/English slot map
`List (Int × String)` (one record per nameID, which is what
`setName(text, nid, 3, 1, 0x409)` maintains); `otherUsedIds` stands for the
nameIDs collected from STAT/fvar/GPOS and non-`ssXX` GSUB features by
`collect_used_name_ids` / `collect_name_id_usage`.  Report strings are kept
as structured lines (`RLine`), with f-string payloads as constructor fields. -/

/-- `FeatureParamsStylisticSet`. -/
structure FeatureParamsSS where
  Version : Int
  UINameID : Option Int
deriving DecidableEq, Repr

/-- One `ssXX` FeatureRecord's `Feature` (only the field the audit touches). -/
structure SSRecord where
  FeatureParams : Option FeatureParamsSS
deriving DecidableEq, Repr

/-- The font state the audit reads and writes. -/
structure AuditFont where
  names : List (Int × String)
  groups : List (Nat × List SSRecord)
  otherUsedIds : List Int
deriving DecidableEq, Repr

/-- The sample shown in an `UNCHANGED` line: an existing name string, a
planned label, or `<no name>`. -/
inductive NameStrVal where
  | sample (s : String) : NameStrVal
  | planned (l : String) : NameStrVal
  | noName : NameStrVal
deriving DecidableEq, Repr

/-- Structured report lines (`CREATED`/`UPDATED`/`UNCHANGED`/`FLAG`/plain). -/
inductive RLine where
  | paramsAbsent (ss missing : Nat) : RLine
  | createdParams (ss count : Nat) : RLine
  | willAddParams (ss missing : Nat) : RLine
  | versionFix (ss : Nat) (oldV : Int) : RLine
  | refConflict (ss other : Nat) (nid : Int) : RLine
  | flagConflict (ss : Nat) (nid : Int) : RLine
  | createdLabel (ss : Nat) (nid : Int) (label : String) : RLine
  | allocated (ss : Nat) (nid : Int) (nameStr : String) : RLine
  | updatedLabel (ss : Nat) (oldLabel : Option String) (newLabel : String) (nid : Int) : RLine
  | updatedUINameID (ss : Nat) (nid : Int) (sets overwrites total : Nat) : RLine
  | unchangedLine (ss : Nat) (nid : Int) (nameStr : NameStrVal) (count : Nat) : RLine
  | noGroups : RLine
deriving DecidableEq, Repr

/-- Lines whose rendered text contains `CREATED` or `UPDATED` (used by the
pretend-mode recomputation of `changed_any`). -/
def isCreatedOrUpdated : RLine → Bool
  | RLine.createdParams _ _ => true
  | RLine.createdLabel _ _ _ => true
  | RLine.allocated _ _ _ => true
  | RLine.updatedLabel _ _ _ _ => true
  | RLine.updatedUINameID _ _ _ _ _ => true
  | _ => false

/-- `has_windows_name_id`. -/
def has_windows_name_id (names : List (Int × String)) (nid : Int) : Bool :=
  names.any (fun r => r.1 = nid)

/-- `get_name_strings_by_id` (one slot per nameID in this model). -/
def get_name_strings (names : List (Int × String)) (nid : Int) : List String :=
  (names.filter (fun r => r.1 = nid)).map Prod.snd

/-- `name_table.setName(text, nid, 3, 1, 0x409)`: replace the slot or add it. -/
def setName (names : List (Int × String)) (nid : Int) (s : String) : List (Int × String) :=
  if names.any (fun r => r.1 = nid) then
    names.map (fun r => if r.1 = nid then (r.1, s) else r)
  else names ++ [(nid, s)]

/-- All `FeatureParams.UINameID` values `≥ 0` of the ssXX groups (the GSUB
part of `collect_used_name_ids` / `collect_name_id_usage`). -/
def paramsIdsOfGroups (groups : List (Nat × List SSRecord)) : List Int :=
  (groups.map (fun g => g.2.filterMap (fun r =>
    match r.FeatureParams with
    | some p =>
        match p.UINameID with
        | some nid => if 0 ≤ nid then some nid else none
        | none => none
    | none => none))).flatten

/-- `collect_used_name_ids(font)` (recomputed at every allocation). -/
def collect_used_name_ids (f : AuditFont) : List Int :=
  paramsIdsOfGroups f.groups ++ f.otherUsedIds

/-- The set `{p.UINameID : p ∈ params, int, ≥ 256}` as an insertion-ordered
duplicate-free list. -/
def refIdsOfParams (ps : List FeatureParamsSS) : List Int :=
  ps.foldl (fun acc p =>
    match p.UINameID with
    | some nid => if 256 ≤ nid ∧ ¬ acc.contains nid then acc ++ [nid] else acc
    | none => acc) []

/-- Referenced UINameIDs of a record group (`collect_referenced_ui_name_ids_by_ss`
body for one group). -/
def refIdsOfRecords (recs : List SSRecord) : List Int :=
  refIdsOfParams (recs.filterMap (fun r => r.FeatureParams))

/-- The while-loop of `allocate_unique_id`: starting from `cand`, step past
reserved values.  `fuel = reserved.length + 1` always suffices (pigeonhole). -/
def allocFrom (reserved : List Int) : Nat → Int → Int
  | 0, cand => cand
  | n + 1, cand => if reserved.contains cand then allocFrom reserved n (cand + 1) else cand

/-- `AuditNameTableManager.allocate_unique_id(exclude_ids)`. -/
def allocate_unique_id (f : AuditFont) (exclude : List Int) : Int :=
  let reserved := f.names.map Prod.fst ++ exclude ++ collect_used_name_ids f
  allocFrom reserved (reserved.length + 1) 256

/-- Lookup in the caller-supplied `set_labels` dict. -/
def lookupLabel (setLabels : List (Nat × String)) (ss : Nat) : Option String :=
  (setLabels.find? (fun e => e.1 = ss)).map Prod.snd

/-- The default `"Stylistic Set NN"` label (zero-padding elided). -/
def defaultLabel (ss : Nat) : String := "Stylistic Set " ++ toString ss

/-- `NameIDResolver._ensure_label`: create the Windows record when missing.
Returns the new font, the `chg` flag and the report lines. -/
def ensure_label (f : AuditFont) (ss : Nat) (nid : Int) (setLabels : List (Nat × String))
    (fix : Bool) : AuditFont × Bool × List RLine :=
  if ¬ has_windows_name_id f.names nid then
    let label := (lookupLabel setLabels ss).getD (defaultLabel ss)
    let f' := if fix then { f with names := setName f.names nid label } else f
    (f', true, [RLine.createdLabel ss nid label])
  else (f, false, [])

/-- Result record of `NameIDResolver.resolve`. -/
structure ResolveRes where
  target : Option Int
  f : AuditFont
  lines : List RLine
  changed : Bool
  planned : Bool
  flagged : Bool
deriving Repr

/-- Step 3 of `NameIDResolver.resolve`: fresh allocation (also reached after a
FLAG in step 2, since the flagged branch leaves `target_id` as `None`). -/
def resolveStep3 (f : AuditFont) (refBySS : List (Nat × List Int)) (usageKeys : List Int)
    (ss : Nat) (setLabels : List (Nat × String)) (pretend fix : Bool)
    (pre : List RLine) (flagged : Bool) : ResolveRes :=
  let exclude := ((refBySS.filter (fun e => e.1 ≠ ss)).map Prod.snd).flatten ++ usageKeys
  let t := allocate_unique_id f exclude
  let label := (lookupLabel setLabels ss).getD (defaultLabel ss)
  let f' := if fix then { f with names := setName f.names t label } else f
  let nameStr := (get_name_strings f'.names t).head?.getD label
  { target := some t, f := f', lines := pre ++ [RLine.allocated ss t nameStr],
    changed := fix, planned := !fix && pretend, flagged := flagged }

/-- `NameIDResolver.resolve(ss_num, params_list, set_labels, pretend, fix)`. -/
def resolve (f : AuditFont) (refBySS : List (Nat × List Int)) (usageKeys : List Int)
    (ss : Nat) (params : List FeatureParamsSS) (setLabels : List (Nat × String))
    (pretend fix : Bool) : ResolveRes :=
  let group_ref_ids := refIdsOfParams params
  let valid_in_group := group_ref_ids.filter (fun nid => has_windows_name_id f.names nid)
  match valid_in_group.min? with
  | some t =>
      -- 1) reuse the smallest referenced id that already has a bound label
      { target := some t, f := f, lines := [], changed := false, planned := false,
        flagged := false }
  | none =>
      match group_ref_ids.min? with
      | some cand =>
          -- 2) referenced but unlabeled: conflict check against the precomputed map
          let colliding := refBySS.filter (fun e => e.1 ≠ ss ∧ e.2.contains cand)
          match colliding.head? with
          | some c =>
              resolveStep3 f refBySS usageKeys ss setLabels pretend fix
                [RLine.refConflict ss c.1 cand, RLine.flagConflict ss cand] true
          | none =>
              if (fix || pretend) && !has_windows_name_id f.names cand then
                let (f', chg, ls) := ensure_label f ss cand setLabels fix
                { target := some cand, f := f', lines := ls,
                  changed := fix && chg, planned := !fix && chg, flagged := false }
              else
                { target := some cand, f := f, lines := [], changed := false,
                  planned := false, flagged := false }
      | none => resolveStep3 f refBySS usageKeys ss setLabels pretend fix [] false

/-- `FeatureParamsFixer.overwrite_label`: returns font, `(changed, planned)`
and report lines.  (In the source the dry-run branch appends its line and then
falls through to `return False, False`.) -/
def overwrite_label (f : AuditFont) (target : Option Int) (ss : Nat)
    (setLabels : List (Nat × String)) (overwriteLabels fix : Bool) :
    AuditFont × Bool × List RLine :=
  match target, lookupLabel setLabels ss with
  | some t, some desired =>
      let current := (get_name_strings f.names t).head?
      if overwriteLabels || current.isNone then
        if current ≠ some desired then
          if fix then
            ({ f with names := setName f.names t desired }, true,
              [RLine.updatedLabel ss current desired t])
          else (f, false, [RLine.updatedLabel ss current desired t])
        else (f, false, [])
      else (f, false, [])
  | _, _ => (f, false, [])

/-- Map a transformation over the `FeatureParams` of the records that have one. -/
def updParamsRecords (recs : List SSRecord) (g : FeatureParamsSS → FeatureParamsSS) :
    List SSRecord :=
  recs.map (fun r =>
    match r.FeatureParams with
    | some p => ⟨some (g p)⟩
    | none => ⟨none⟩)

/-- Result of `ensure_feature_params`. -/
structure EnsureRes where
  records : List SSRecord
  params : List FeatureParamsSS
  lines : List RLine
  changed : Bool
  planned : Bool
deriving Repr

/-- `FeatureParamsFixer.ensure_feature_params`. -/
def ensure_feature_params (records : List SSRecord) (ss : Nat)
    (fix addMissing pretend : Bool) : EnsureRes :=
  let missing := (records.filter (fun r => r.FeatureParams.isNone)).length
  let l1 : List RLine :=
    if 0 < missing ∧ ¬ (addMissing ∧ (fix ∨ pretend)) then [RLine.paramsAbsent ss missing]
    else []
  let createdAny := fix ∧ addMissing ∧ 0 < missing
  let records' :=
    if createdAny then
      records.map (fun r => if r.FeatureParams.isNone then ⟨some ⟨0, none⟩⟩ else r)
    else records
  let l2 : List RLine :=
    if createdAny then [RLine.createdParams ss missing]
    else if pretend ∧ addMissing ∧ 0 < missing then [RLine.willAddParams ss missing]
    else []
  let planned := ¬ createdAny ∧ pretend ∧ addMissing ∧ 0 < missing
  ⟨records', records'.filterMap (fun r => r.FeatureParams), l1 ++ l2,
    decide createdAny, decide planned⟩

/-- `FeatureParamsFixer.normalize_versions` (record-level; the report iterates
the group's params in order). -/
def normalize_versions (records : List SSRecord) (ss : Nat) (fix : Bool) :
    List SSRecord × List RLine × Bool :=
  let ps := records.filterMap (fun r => r.FeatureParams)
  let lines := ps.filterMap (fun p =>
    if p.Version ≠ 0 then some (RLine.versionFix ss p.Version) else none)
  let records' :=
    if fix then updParamsRecords records (fun p => if p.Version ≠ 0 then { p with Version := 0 } else p)
    else records
  (records', lines, fix && ps.any (fun p => p.Version ≠ 0))

/-- Result of `apply_target_id`. -/
structure ApplyRes where
  records : List SSRecord
  lines : List RLine
  changed : Bool
  planned : Bool
deriving Repr

/-- `FeatureParamsFixer.apply_target_id` (record-level). -/
def apply_target_id (f : AuditFont) (records : List SSRecord) (target : Option Int)
    (ss : Nat) (fix pretend : Bool) (setLabels : List (Nat × String)) : ApplyRes :=
  match target with
  | none => ⟨records, [], false, false⟩
  | some t =>
      let ps := records.filterMap (fun r => r.FeatureParams)
      let changesL := ps.filter (fun p => p.UINameID ≠ some t)
      let changes := changesL.length
      let overwrites := (changesL.filter (fun p =>
        match p.UINameID with
        | some c => 0 ≤ c
        | none => false)).length
      let sets := changes - overwrites
      let records' :=
        if !pretend && fix then
          updParamsRecords records (fun p =>
            if p.UINameID ≠ some t then { p with UINameID := some t } else p)
        else records
      if changes ≠ 0 then
        ⟨records', [RLine.updatedUINameID ss t sets overwrites ps.length],
          !pretend && fix, true⟩
      else
        let nameStr : NameStrVal :=
          match (get_name_strings f.names t).head?, lookupLabel setLabels ss with
          | some s, _ => NameStrVal.sample s
          | none, some l => if pretend then NameStrVal.planned l else NameStrVal.noName
          | none, none => NameStrVal.noName
        ⟨records, [RLine.unchangedLine ss t nameStr ps.length], false, false⟩

/-- Result of processing one group in the audit loop. -/
structure StepRes where
  f : AuditFont
  records : List SSRecord
  lines : List RLine
  changed : Bool
  flagged : Bool
  target : Option Int
deriving Repr

/-- One iteration of the `for ss_num, records in sorted(ss_groups.items())`
loop of `audit_and_repair_stylistic_sets`. -/
def processGroup (f : AuditFont) (refBySS : List (Nat × List Int)) (usageKeys : List Int)
    (fix addMissing pretend force : Bool) (setLabels : List (Nat × String))
    (ss : Nat) (records : List SSRecord) : StepRes :=
  let e := ensure_feature_params records ss fix addMissing pretend
  if e.params = [] then
    ⟨f, e.records, e.lines, e.changed, false, none⟩
  else
    let n := normalize_versions e.records ss fix
    let params2 := n.1.filterMap (fun r => r.FeatureParams)
    let r := resolve f refBySS usageKeys ss params2 setLabels pretend fix
    let ol := overwrite_label r.f r.target ss setLabels force fix
    let a := apply_target_id ol.1 n.1 r.target ss fix pretend setLabels
    ⟨ol.1, a.records, e.lines ++ n.2.1 ++ r.lines ++ ol.2.2 ++ a.lines,
      e.changed || n.2.2 || r.changed || ol.2.1 || a.changed, r.flagged, r.target⟩

/-- Replace the record list of group `ss` in the grouped font state. -/
def updateGroup (groups : List (Nat × List SSRecord)) (ss : Nat) (recs : List SSRecord) :
    List (Nat × List SSRecord) :=
  groups.map (fun g => if g.1 = ss then (g.1, recs) else g)

/-- Result of a whole audit run. -/
structure AuditRes where
  f : AuditFont
  report : List RLine
  changed : Bool
  flagged : Bool
  resolved : List (Nat × Int)
deriving Repr

/-- The audit loop over the sorted group list, threading the font state.
`resolved` records `(ss_num, target_id)` for every group that reached the
resolver (ghost output used by the theorems). -/
def auditLoop (refBySS : List (Nat × List Int)) (usageKeys : List Int)
    (fix addMissing pretend force : Bool) (setLabels : List (Nat × String)) :
    List (Nat × List SSRecord) → AuditFont → AuditRes
  | [], f => ⟨f, [], false, false, []⟩
  | (ss, recs) :: rest, f =>
      let s := processGroup f refBySS usageKeys fix addMissing pretend force setLabels ss recs
      let f' : AuditFont := { s.f with groups := updateGroup s.f.groups ss s.records }
      let r := auditLoop refBySS usageKeys fix addMissing pretend force setLabels rest f'
      ⟨r.f, s.lines ++ r.report, s.changed || r.changed, s.flagged || r.flagged,
        (match s.target with
          | some t => (ss, t) :: r.resolved
          | none => r.resolved)⟩

/-- Insertion step of the ascending sort on group numbers. -/
def insertSorted (p : Nat × List SSRecord) :
    List (Nat × List SSRecord) → List (Nat × List SSRecord)
  | [] => [p]
  | q :: t => if p.1 ≤ q.1 then p :: q :: t else q :: insertSorted p t

/-- `sorted(ss_groups.items())`: ascending by group number (insertion sort;
kernel-reducible). -/
def sortGroups : List (Nat × List SSRecord) → List (Nat × List SSRecord)
  | [] => []
  | p :: t => insertSorted p (sortGroups t)

/-- `audit_and_repair_stylistic_sets` (in-memory part; file I/O and the final
save are outside the model).  `fix ∧ ¬pretend` is apply mode. -/
def audit_and_repair (f : AuditFont) (fix addMissing pretend force : Bool)
    (setLabels : List (Nat × String)) : AuditRes :=
  if f.groups = [] then ⟨f, [RLine.noGroups], false, false, []⟩
  else
    let refBySS := f.groups.map (fun g => (g.1, refIdsOfRecords g.2))
    let usageKeys := collect_used_name_ids f
    let sortedGroups := sortGroups f.groups
    let r := auditLoop refBySS usageKeys fix addMissing pretend force setLabels sortedGroups f
    let changed := if pretend then r.report.any isCreatedOrUpdated else r.changed
    ⟨r.f, r.report, changed, r.flagged, r.resolved⟩

/-- Apply-mode (`fix = true`, `pretend = false`) shorthands. -/
def applyStep (f : AuditFont) (refBySS : List (Nat × List Int)) (usageKeys : List Int)
    (addMissing force : Bool) (setLabels : List (Nat × String))
    (ss : Nat) (recs : List SSRecord) : StepRes :=
  processGroup f refBySS usageKeys true addMissing false force setLabels ss recs

def applyLoop (refBySS : List (Nat × List Int)) (usageKeys : List Int)
    (addMissing force : Bool) (setLabels : List (Nat × String))
    (gl : List (Nat × List SSRecord)) (f : AuditFont) : AuditRes :=
  auditLoop refBySS usageKeys true addMissing false force setLabels gl f

def applyRun (f : AuditFont) (addMissing force : Bool)
    (setLabels : List (Nat × String)) : AuditRes :=
  audit_and_repair f true addMissing false force setLabels

/-! ### Predicates used by the audit theorems -/

/-- Identifier `t` was validly shared by group `ss` before a run: the group's
records referenced it and it had a bound Windows label. -/
def validShared (f : AuditFont) (ss : Nat) (t : Int) : Prop :=
  (∃ g ∈ f.groups, g.1 = ss ∧ t ∈ refIdsOfRecords g.2) ∧
    has_windows_name_id f.names t = true

/-- `t` is referenced by no group other than `ss` in the precomputed
reference map. -/
def noOtherRef (refBySS : List (Nat × List Int)) (ss : Nat) (t : Int) : Prop :=
  ∀ e ∈ refBySS, e.1 ≠ ss → t ∉ e.2

/-- `validShared` phrased over the precomputed reference map and the initial
name table. -/
def validSharedR (refBySS : List (Nat × List Int)) (names0 : List (Int × String))
    (ss : Nat) (t : Int) : Prop :=
  (∃ e ∈ refBySS, e.1 = ss ∧ t ∈ e.2) ∧ has_windows_name_id names0 t = true

/-- Normal form of one group after an apply-mode run: either no parameter
blocks at all, or all parameter blocks share version 0 and one bound
identifier `t ≥ 256`. -/
def NFGroup (names : List (Int × String)) (recs : List SSRecord) : Prop :=
  recs.filterMap (fun r => r.FeatureParams) = [] ∨
  ∃ t : Int, 256 ≤ t ∧
    (∀ p ∈ recs.filterMap (fun r => r.FeatureParams), p = ⟨0, some t⟩) ∧
    has_windows_name_id names t = true

/-- Normal form of one group after an apply-mode run, relative to the
`add_missing_params` flag: either no parameter blocks at all (and no records at
all when missing blocks would have been added), or a nonempty parameter list
sharing version 0 and one bound identifier `t ≥ 256` (with no parameter-less
records left when `add_missing_params` is set). -/
def NFGroupA (addMissing : Bool) (names : List (Int × String))
    (recs : List SSRecord) : Prop :=
  (recs.filterMap (fun r => r.FeatureParams) = [] ∧ (addMissing = true → recs = [])) ∨
  ∃ t : Int, 256 ≤ t ∧
    recs.filterMap (fun r => r.FeatureParams) ≠ [] ∧
    (∀ p ∈ recs.filterMap (fun r => r.FeatureParams), p = ⟨0, some t⟩) ∧
    has_windows_name_id names t = true ∧
    (addMissing = true → ∀ r ∈ recs, r.FeatureParams.isSome = true)

/-- Report lines a second apply-mode run may still emit: per-group UNCHANGED
lines, repeated informational deficiency lines, and the no-groups notice. -/
def isSecondRunLine : RLine → Bool
  | RLine.unchangedLine _ _ _ _ => true
  | RLine.paramsAbsent _ _ => true
  | RLine.noGroups => true
  | _ => false

/-! ## Concrete fonts and inputs used by the claim theorems -/

/-- C3 scenario font: ss01 and ss02 both reference UINameID 300, which has no
bound label; ss03 exists with an id-less parameter block. -/
def c3_font : AuditFont :=
  { names := []
    groups := [(1, [⟨some ⟨0, some 300⟩⟩]), (2, [⟨some ⟨0, some 300⟩⟩]),
               (3, [⟨some ⟨0, none⟩⟩])]
    otherUsedIds := [] }

/-- Universe `{f, i, f_i}` with an empty codepoint map. -/
def c7_font_nocmap : DetectFont :=
  ⟨["f", "i", "f_i"].map String.toList, [], []⟩

/-- Universe `{f, i, f_i}` with `f` and `i` mapped in the cmap. -/
def c7_font_mapped : DetectFont :=
  ⟨["f", "i", "f_i"].map String.toList,
    [(0x66, "f".toList), (0x69, "i".toList)], []⟩

/-- The same font with glyph `i` removed from the universe. -/
def c7_font_removed : DetectFont :=
  ⟨["f", "f_i"].map String.toList, [(0x66, "f".toList)], []⟩

/-- Four-component ligature name with exactly two components in the cmap image. -/
def c8_font4 : DetectFont :=
  ⟨["a", "b", "c", "d", "a_b_c_d"].map String.toList,
    [(97, "a".toList), (98, "b".toList)], []⟩

/-- Three-component ligature name with exactly one component in the cmap image. -/
def c8_font3 : DetectFont :=
  ⟨["a", "b", "c", "a_b_c"].map String.toList, [(97, "a".toList)], []⟩

/-- C10 concrete input: one stylistic-set group whose single pair is already
realized. -/
def c10_detected : DetectedFeatures :=
  { stylistic_sets := some [(1, [("a", "a.alt1")])] }

def c10_existing : ExistingSubs := ⟨[], [("a", "a.alt1")]⟩

/-- C1 witness font: ss01 and ss02 both reference identifier 300, which
carries a bound Windows label, so both validly share it. -/
def c1_font : AuditFont :=
  { names := [(300, "Shared")]
    groups := [(1, [⟨some ⟨0, some 300⟩⟩]), (2, [⟨some ⟨0, some 300⟩⟩])]
    otherUsedIds := [] }

/-- C2 counterexample font: both groups reference the labelled identifier 300;
with `force_overwrite` and distinct caller labels a second run keeps rewriting
the shared label. -/
def c2_font : AuditFont :=
  { names := [(300, "Old")]
    groups := [(1, [⟨some ⟨0, some 300⟩⟩]), (2, [⟨some ⟨0, some 300⟩⟩])]
    otherUsedIds := [] }

/-- The FEA line `sub a' by b;` (a single-line contextual rule marked with an
apostrophe on its input glyph). -/
def ctxLine1 : List Char := "sub a".toList ++ [Char.ofNat 39] ++ " by b;".toList

/-- The FEA line `sub a' by c;`: same marked input sequence, different output. -/
def ctxLine2 : List Char := "sub a".toList ++ [Char.ofNat 39] ++ " by c;".toList

/-- The universe used by the C6 counterexample: `a`, `a.alt01` and `a.alt03`. -/
def c6_order : List GName := ["a", "a.alt01", "a.alt03"].map String.toList

/-! ## C3 — conflicting unlabeled reference scenario -/

/-- C3: the claim is false on the code.  On the concrete two-group font where
ss01 and ss02 both reference the unlabeled identifier 300, ss01 does NOT adopt
300 (it resolves to the freshly allocated 256), and ss02 does NOT remain
unresolved (it resolves to the freshly allocated 257). -/
theorem c3_counterexample :
    (1, (300 : Int)) ∉ (audit_and_repair c3_font true false false false []).resolved ∧
    (2, (257 : Int)) ∈ (audit_and_repair c3_font true false false false []).resolved := by
  decide

/-- C3 (amended): with ss01 and ss02 both referencing the unlabeled
identifier 300, the conflict check (which runs against the precomputed
reference map and is therefore symmetric) flags BOTH groups; neither adopts
300 and no label for 300 is created; each falls through to fresh allocation
(ss01 gets 256, ss02 the next free 257), the FLAGs are not fatal, and the
remaining group ss03 continues resolving (to 258). -/
theorem c3_amended :
    (audit_and_repair c3_font true false false false []).resolved =
      [(1, 256), (2, 257), (3, 258)] ∧
    RLine.flagConflict 1 300 ∈ (audit_and_repair c3_font true false false false []).report ∧
    RLine.flagConflict 2 300 ∈ (audit_and_repair c3_font true false false false []).report ∧
    has_windows_name_id (audit_and_repair c3_font true false false false []).f.names 300 = false ∧
    (audit_and_repair c3_font true false false false []).flagged = true := by
  decide

/-! ## C4 — structural dedup soundness of the merge filter -/

theorem mem_filterLigList_getD {ex : List (List String)}
    {o : Option (List (List String × String))} {c : List String × String} :
    c ∈ filterLigList ex o ↔ c ∈ o.getD [] ∧ c.1 ∉ ex := by
  cases o <;> simp [filterLigList, List.mem_filter]

theorem mem_filterPairList_getD {ex : List (String × String)}
    {o : Option (List (String × String))} {c : String × String} :
    c ∈ filterPairList ex o ↔ c ∈ o.getD [] ∧ c ∉ ex := by
  cases o <;> simp [filterPairList, List.mem_filter]

/-- C4: a detected candidate is dropped by `_filter_against_existing` exactly
when its key is in the existing-behavior index: for ligature lists the key is
the component tuple, for every pairwise list it is the (input, output) pair.
In particular a pair sharing only the input with an existing pair passes
through, as the concrete `(a, a.alt1)` / `(a, a.alt2)` instance shows. -/
theorem c4_dedup_soundness :
    (∀ (detected : DetectedFeatures) (existing : ExistingSubs),
      (∀ c : List String × String,
          (c ∈ (filter_against_existing detected existing).liga ↔
            c ∈ detected.liga.getD [] ∧ c.1 ∉ existing.ligatures) ∧
          (c ∈ (filter_against_existing detected existing).dlig ↔
            c ∈ detected.dlig.getD [] ∧ c.1 ∉ existing.ligatures)) ∧
      (∀ c : String × String,
          (c ∈ (filter_against_existing detected existing).smcp ↔
            c ∈ detected.smcp.getD [] ∧ c ∉ existing.single) ∧
          (c ∈ (filter_against_existing detected existing).onum ↔
            c ∈ detected.onum.getD [] ∧ c ∉ existing.single) ∧
          (c ∈ (filter_against_existing detected existing).lnum ↔
            c ∈ detected.lnum.getD [] ∧ c ∉ existing.single) ∧
          (c ∈ (filter_against_existing detected existing).tnum ↔
            c ∈ detected.tnum.getD [] ∧ c ∉ existing.single) ∧
          (c ∈ (filter_against_existing detected existing).pnum ↔
            c ∈ detected.pnum.getD [] ∧ c ∉ existing.single) ∧
          (c ∈ (filter_against_existing detected existing).swsh ↔
            c ∈ detected.swsh.getD [] ∧ c ∉ existing.single) ∧
          (c ∈ (filter_against_existing detected existing).calt ↔
            c ∈ detected.calt.getD [] ∧ c ∉ existing.single) ∧
          (c ∈ (filter_against_existing detected existing).sups ↔
            c ∈ detected.sups.getD [] ∧ c ∉ existing.single) ∧
          (c ∈ (filter_against_existing detected existing).subs ↔
            c ∈ detected.subs.getD [] ∧ c ∉ existing.single) ∧
          (c ∈ (filter_against_existing detected existing).ordn ↔
            c ∈ detected.ordn.getD [] ∧ c ∉ existing.single) ∧
          (c ∈ (filter_against_existing detected existing).c2sc ↔
            c ∈ detected.c2sc.getD [] ∧ c ∉ existing.single) ∧
          (c ∈ (filter_against_existing detected existing).salt ↔
            c ∈ detected.salt.getD [] ∧ c ∉ existing.single) ∧
          (c ∈ (filter_against_existing detected existing).zero ↔
            c ∈ detected.zero.getD [] ∧ c ∉ existing.single) ∧
          (c ∈ (filter_against_existing detected existing).case ↔
            c ∈ detected.case.getD [] ∧ c ∉ existing.single) ∧
          (c ∈ (filter_against_existing detected existing).titl ↔
            c ∈ detected.titl.getD [] ∧ c ∉ existing.single) ∧
          (c ∈ (filter_against_existing detected existing).numr ↔
            c ∈ detected.numr.getD [] ∧ c ∉ existing.single) ∧
          (c ∈ (filter_against_existing detected existing).dnom ↔
            c ∈ detected.dnom.getD [] ∧ c ∉ existing.single) ∧
          (c ∈ (filter_against_existing detected existing).sinf ↔
            c ∈ detected.sinf.getD [] ∧ c ∉ existing.single) ∧
          (c ∈ (filter_against_existing detected existing).hist ↔
            c ∈ detected.hist.getD [] ∧ c ∉ existing.single)) ∧
      (∀ subs ∈ (filter_against_existing detected existing).stylistic_sets,
          ∀ c ∈ subs.2, c ∉ existing.single)) ∧
    (("a", "a.alt1") ∉ (filter_against_existing { calt := some [("a", "a.alt1"), ("a", "a.alt2")] }
        ⟨[], [("a", "a.alt1")]⟩).calt ∧
      ("a", "a.alt2") ∈ (filter_against_existing { calt := some [("a", "a.alt1"), ("a", "a.alt2")] }
        ⟨[], [("a", "a.alt1")]⟩).calt) := by
  constructor
  · intro detected existing
    refine ⟨fun c => ⟨mem_filterLigList_getD, mem_filterLigList_getD⟩,
      fun c => ⟨mem_filterPairList_getD, mem_filterPairList_getD, mem_filterPairList_getD,
        mem_filterPairList_getD, mem_filterPairList_getD, mem_filterPairList_getD,
        mem_filterPairList_getD, mem_filterPairList_getD, mem_filterPairList_getD,
        mem_filterPairList_getD, mem_filterPairList_getD, mem_filterPairList_getD,
        mem_filterPairList_getD, mem_filterPairList_getD, mem_filterPairList_getD,
        mem_filterPairList_getD, mem_filterPairList_getD, mem_filterPairList_getD,
        mem_filterPairList_getD⟩, ?_⟩
    intro subs hsubs c hc
    simp only [filter_against_existing] at hsubs
    cases hd : detected.stylistic_sets with
    | none => rw [hd] at hsubs; simp at hsubs
    | some ss =>
        rw [hd] at hsubs
        simp only [List.mem_filterMap] at hsubs
        obtain ⟨g, _, hg⟩ := hsubs
        by_cases hk : g.2.filter (fun c => ¬ existing.single.contains c) = []
        · rw [if_pos hk] at hg; cases hg
        · rw [if_neg hk] at hg
          cases hg
          have := List.of_mem_filter hc
          simpa using this
  · exact ⟨by decide, by decide⟩

/-! ## C7 — the f + i → f_i scenario -/

/-- C7: the claim is false on the code as stated ("no codepoint mapping
required for any of them"): with the universe `{f, i, f_i}` and an empty
codepoint map, the half-threshold guard (0 accepted components < 2/2)
rejects the candidate and no ligature is produced. -/
theorem c7_counterexample : detect_ligatures c7_font_nocmap = [] := by decide

/-- C7 (amended): with `f` and `i` present in the codepoint-map image (as in
any real font — the half-threshold guard requires at least one of the two),
ligature detection produces exactly `([f, i], f_i)`; removing glyph `i` from
the universe removes the candidate. -/
theorem c7_amended :
    detect_ligatures c7_font_mapped = [(["f".toList, "i".toList], "f_i".toList)] ∧
    detect_ligatures c7_font_removed = [] := by
  decide

/-! ## C8 — the real-number half threshold -/

/-- Every non-empty output of `acceptResolved` is the input list and satisfies
the half-threshold guard. -/
theorem acceptResolved_half {f : DetectFont} {r out : List GName}
    (h : acceptResolved f r = out) (hne : out ≠ []) :
    out = r ∧ out.length ≤ 2 * ((out.filter (inCmapImage f)).length) := by
  unfold acceptResolved at h
  split at h
  · exact absurd h.symm hne
  · dsimp only at h
    split at h
    · exact absurd h.symm hne
    · rename_i hguard
      subst h
      exact ⟨rfl, by omega⟩

/-- `parse_ligature_components` either rejects or returns an
`acceptResolved` value. -/
theorem parse_eq_accept (f : DetectFont) (g : GName) :
    parse_ligature_components f g = [] ∨
      ∃ r, parse_ligature_components f g = acceptResolved f r := by
  unfold parse_ligature_components
  dsimp only
  split
  · exact Or.inl rfl
  · split
    · exact Or.inl rfl
    · rename_i resolved heq
      exact Or.inr ⟨resolved, rfl⟩

/-- C8: ligature acceptance uses the real-number half threshold on resolved
components present in the cmap image: `a_b_c_d` with 2 of 4 mapped components
is accepted (¬(2 < 4/2)), `a_b_c` with 1 of 3 mapped components is rejected
(1 < 3/2); the guard used is exactly the rational comparison
`valid < length/2`, and every accepted candidate has at least half of its
resolved components in the cmap image. -/
theorem c8_half_threshold :
    parse_ligature_components c8_font4 "a_b_c_d".toList =
      ["a".toList, "b".toList, "c".toList, "d".toList] ∧
    parse_ligature_components c8_font3 "a_b_c".toList = [] ∧
    (∀ valid n : ℕ, (2 * valid < n) ↔ ((valid : ℚ) < (n : ℚ) / 2)) ∧
    ∀ (f : DetectFont) (g : GName), parse_ligature_components f g ≠ [] →
      (parse_ligature_components f g).length ≤
        2 * ((parse_ligature_components f g).filter (inCmapImage f)).length := by
  refine ⟨by decide, by decide, ?_, ?_⟩
  · intro valid n
    rw [lt_div_iff₀ (by norm_num : (0:ℚ) < 2)]
    constructor
    · intro h
      have : ((2 * valid : ℕ) : ℚ) < (n : ℚ) := by exact_mod_cast h
      push_cast at this
      linarith
    · intro h
      have : ((2 * valid : ℕ) : ℚ) < (n : ℚ) := by push_cast; linarith
      exact_mod_cast this
  · intro f g hne
    rcases parse_eq_accept f g with h | ⟨r, h⟩
    · exact absurd h hne
    · rw [h] at hne ⊢
      exact (acceptResolved_half rfl hne).2

/-! ## C9 — ordinal contextual scope -/

/-- C9: the claim is false on the code: when the supplied font has no digit
glyphs the generator falls back to unconditional substitutions, so the
candidate with base glyph `b` DOES produce an ordinal rule. -/
theorem c9_counterexample :
    OrdnLine.simpleSub "b".toList "b.ordn".toList ∈
      generate_ordn_feature [("b".toList, "b.ordn".toList)]
        (some ["b".toList, "b.ordn".toList]) := by
  decide

theorem mem_ordnBody_contextual {ng : List GName} {substs : List (GName × GName)}
    {b v : GName} (hne : ng ≠ []) :
    OrdnLine.contextualSub ng b v ∈ ordnBody ng substs ↔
      (b, v) ∈ substs ∧ ordnLetters.contains (lowerName b) = true := by
  simp only [ordnBody, if_neg hne, List.mem_filterMap]
  constructor
  · rintro ⟨⟨sb, sv⟩, hs, hif⟩
    by_cases hl : ordnLetters.contains (lowerName sb) = true
    · rw [if_pos hl] at hif
      injection hif with h1
      injection h1 with hng hb hv
      subst hb; subst hv
      exact ⟨hs, hl⟩
    · rw [if_neg hl] at hif
      cases hif
  · rintro ⟨hmem, hl⟩
    exact ⟨(b, v), hmem, by rw [if_pos hl]⟩

theorem simpleSub_not_mem_ordnBody {ng : List GName} {substs : List (GName × GName)}
    {b v : GName} (hne : ng ≠ []) :
    OrdnLine.simpleSub b v ∉ ordnBody ng substs := by
  simp only [ordnBody, if_neg hne, List.mem_filterMap]
  rintro ⟨⟨sb, sv⟩, _, hif⟩
  by_cases hl : ordnLetters.contains (lowerName sb) = true
  · rw [if_pos hl] at hif
    injection hif with h1
    cases h1
  · rw [if_neg hl] at hif
    cases hif

theorem mem_ordnBody_simple {ng : List GName} {substs : List (GName × GName)}
    {b v : GName} (hempty : ng = []) :
    OrdnLine.simpleSub b v ∈ ordnBody ng substs ↔ (b, v) ∈ substs := by
  simp only [ordnBody, if_pos hempty, List.mem_map]
  constructor
  · rintro ⟨⟨sb, sv⟩, hs, heq⟩
    injection heq with hb hv
    subst hb; subst hv
    exact hs
  · intro hmem
    exact ⟨(b, v), hmem, rfl⟩

/-- Membership of a body line in the full ordn feature block. -/
theorem mem_generate_ordn {substs : List (GName × GName)} {order : List GName}
    {l : OrdnLine} (hbody : l ≠ OrdnLine.header ∧ l ≠ OrdnLine.commentA ∧
      l ≠ OrdnLine.commentB ∧ l ≠ OrdnLine.footer) :
    l ∈ generate_ordn_feature substs (some order) ↔
      substs ≠ [] ∧ l ∈ ordnBody (buildNumberGlyphs order) substs := by
  obtain ⟨h1, h2, h3, h4⟩ := hbody
  by_cases hs : substs = []
  · simp [generate_ordn_feature, hs]
  · simp [generate_ordn_feature, hs, h1, h2, h3, h4]

/-- C9 (amended): when the digit-glyph class built from the font is nonempty,
a candidate's rule exists iff its base letter is in the fixed set
{a,o,n,h,r,t,s} (case-insensitive), and every emitted rule is the contextual
digit-gated form (no unconditional rule is emitted); when the digit class is
empty the generator instead emits an unconditional rule for every candidate,
including those outside the letter set. -/
theorem c9_amended :
    (∀ (substs : List (GName × GName)) (order : List GName),
        buildNumberGlyphs order ≠ [] →
        (∀ b v, OrdnLine.simpleSub b v ∉ generate_ordn_feature substs (some order)) ∧
        (∀ b v, OrdnLine.contextualSub (buildNumberGlyphs order) b v ∈
            generate_ordn_feature substs (some order) ↔
          substs ≠ [] ∧ (b, v) ∈ substs ∧ ordnLetters.contains (lowerName b) = true)) ∧
    (∀ (substs : List (GName × GName)) (order : List GName),
        buildNumberGlyphs order = [] →
        ∀ b v, OrdnLine.simpleSub b v ∈ generate_ordn_feature substs (some order) ↔
          substs ≠ [] ∧ (b, v) ∈ substs) := by
  constructor
  · intro substs order hne
    constructor
    · intro b v hmem
      rw [mem_generate_ordn (by refine ⟨?_, ?_, ?_, ?_⟩ <;> simp)] at hmem
      exact simpleSub_not_mem_ordnBody hne hmem.2
    · intro b v
      rw [mem_generate_ordn (by refine ⟨?_, ?_, ?_, ?_⟩ <;> simp)]
      rw [and_congr_right_iff]
      intro _
      exact mem_ordnBody_contextual hne
  · intro substs order hempty b v
    rw [mem_generate_ordn (by refine ⟨?_, ?_, ?_, ?_⟩ <;> simp)]
    rw [and_congr_right_iff]
    intro _
    exact mem_ordnBody_simple hempty

/-- C9 witness: the amended theorem applied at the digit-bearing font with
candidates `a` (in the letter set) and `b` (outside it). -/
theorem c9_amended_witness :
    OrdnLine.contextualSub ["one".toList] "a".toList "a.ordn".toList ∈
      generate_ordn_feature [("a".toList, "a.ordn".toList), ("b".toList, "b.ordn".toList)]
        (some ["a".toList, "a.ordn".toList, "b".toList, "one".toList]) ∧
    OrdnLine.simpleSub "b".toList "b.ordn".toList ∉
      generate_ordn_feature [("a".toList, "a.ordn".toList), ("b".toList, "b.ordn".toList)]
        (some ["a".toList, "a.ordn".toList, "b".toList, "one".toList]) := by
  have hng : buildNumberGlyphs ["a".toList, "a.ordn".toList, "b".toList, "one".toList] =
      ["one".toList] := by decide
  constructor
  · have h := (c9_amended.1 [("a".toList, "a.ordn".toList), ("b".toList, "b.ordn".toList)]
      ["a".toList, "a.ordn".toList, "b".toList, "one".toList] (by rw [hng]; simp)).2
        "a".toList "a.ordn".toList
    rw [hng] at h
    exact h.mpr (by refine ⟨by simp, by simp, by decide⟩)
  · exact (c9_amended.1 [("a".toList, "a.ordn".toList), ("b".toList, "b.ordn".toList)]
      ["a".toList, "a.ordn".toList, "b".toList, "one".toList] (by rw [hng]; simp)).1
        "b".toList "b.ordn".toList

/-! ## C5 — text-level deduplication -/

/-- Lines that are not single-line `sub ... by ...;` statements (no key) are
never removed. -/
theorem dedupAux_filter_none (seen : List (List (List Char))) (lines : List (List Char)) :
    (dedupAux seen lines).1.filter (fun l => (lineKey l).isNone) =
      lines.filter (fun l => (lineKey l).isNone) := by
  induction lines generalizing seen with
  | nil => rfl
  | cons line rest ih =>
      cases hk : lineKey line with
      | none =>
          simp only [dedupAux, hk, List.filter_cons, Option.isNone_none]
          rw [ih]
      | some k =>
          by_cases hmem : seen.contains k
          · simp only [dedupAux, hk, hmem, if_pos, List.filter_cons, Option.isNone_some]
            rw [ih]
            simp
          · simp only [dedupAux, hk, hmem, if_neg, Bool.false_eq_true, not_false_iff,
              List.filter_cons, Option.isNone_some]
            rw [ih]
            try simp

/-- The output is a subsequence of the input. -/
theorem dedupAux_sublist (seen : List (List (List Char))) (lines : List (List Char)) :
    (dedupAux seen lines).1.Sublist lines := by
  induction lines generalizing seen with
  | nil => exact List.Sublist.refl _
  | cons line rest ih =>
      cases hk : lineKey line with
      | none =>
          simp only [dedupAux, hk]
          exact List.Sublist.cons₂ _ (ih seen)
      | some k =>
          by_cases hmem : seen.contains k
          · simp only [dedupAux, hk, hmem, if_pos]
            exact List.Sublist.cons _ (ih seen)
          · simp only [dedupAux, hk, hmem, if_neg, Bool.false_eq_true, not_false_iff]
            exact List.Sublist.cons₂ _ (ih (k :: seen))

/-- The keys of the kept keyed lines are pairwise distinct and avoid the
already-seen set. -/
theorem dedupAux_keys_nodup (seen : List (List (List Char))) (lines : List (List Char)) :
    ((dedupAux seen lines).1.filterMap lineKey).Nodup ∧
      ∀ k ∈ (dedupAux seen lines).1.filterMap lineKey, k ∉ seen := by
  induction lines generalizing seen with
  | nil => exact ⟨List.nodup_nil, by simp [dedupAux]⟩
  | cons line rest ih =>
      cases hk : lineKey line with
      | none =>
          simp only [dedupAux, hk, List.filterMap_cons_none, List.filterMap_cons]
          exact ih seen
      | some k =>
          by_cases hmem : seen.contains k
          · simp only [dedupAux, hk, hmem, if_pos]
            exact ih seen
          · simp only [dedupAux, hk, hmem, if_neg, Bool.false_eq_true, not_false_iff,
              List.filterMap_cons, hk]
            obtain ⟨ihn, ihs⟩ := ih (k :: seen)
            refine ⟨List.nodup_cons.mpr ⟨fun hin => ?_, ihn⟩, ?_⟩
            · have := ihs k hin
              simp at this
            · intro k2 hk2
              rcases List.mem_cons.mp hk2 with h | h
              · subst h
                intro hc
                exact hmem (by simpa using hc)
              · have hns := ihs k2 h
                intro hc
                exact hns (List.mem_cons_of_mem _ hc)

/-- C5: the claim is false on the code: the text-level dedup DOES remove
contextual statements.  The single-line contextual rules `sub a' by b;` and
`sub a' by c;` (marked input `a'`) satisfy the guard and the regex, share the
input-sequence key, and the second — a contextual statement — is dropped. -/
theorem c5_counterexample :
    (deduplicate_fea_code [ctxLine1, ctxLine2]).1 = [ctxLine1] := by decide

/-- C5 (amended): the dedup pass operates on every single-line
`sub ... by ...;` statement — including contextual ones with marked glyphs —
keyed on the (normalized) input glyph sequence alone, so a later statement
with an already-seen input sequence is dropped regardless of its output;
lines not of that single-line shape (multi-line statement fragments,
`ignore sub` lines, lookup references without `by`) are never removed, the
output is a subsequence of the input, and kept keyed lines have pairwise
distinct input-sequence keys. -/
theorem c5_amended :
    (∀ lines : List (List Char),
      (deduplicate_fea_code lines).1.filter (fun l => (lineKey l).isNone) =
        lines.filter (fun l => (lineKey l).isNone) ∧
      (deduplicate_fea_code lines).1.Sublist lines ∧
      ((deduplicate_fea_code lines).1.filterMap lineKey).Nodup) ∧
    (deduplicate_fea_code [ctxLine1, ctxLine2]).1 = [ctxLine1] ∧
    (lineKey "ignore sub a by b;".toList = none ∧
      lineKey "sub a lookup X;".toList = none ∧
      lineKey "  sub f i by f_i;".toList = some ["f".toList, "i".toList]) := by
  refine ⟨fun lines => ⟨?_, ?_, ?_⟩, by decide, by decide, by decide, by decide⟩
  · exact dedupAux_filter_none [] lines
  · exact dedupAux_sublist [] lines
  · exact (dedupAux_keys_nodup [] lines).1

/-! ## C6 — contextual vs stylistic alternates -/

/-- Definitional step equation of `caltSearch`. -/
theorem caltSearch_step (g : GName) (n : Nat) :
    caltSearch g (n + 1) =
      match suffixAltMatch (g.drop (n + 1)) with
      | some kd => some (g.take (n + 1), kd.1, kd.2)
      | none => caltSearch g n := rfl

/-- Skipping a failing range of split points. -/
theorem caltSearch_ge (g : GName) (m n : Nat) (hmn : m ≤ n)
    (hfail : ∀ j, m < j → j ≤ n → suffixAltMatch (g.drop j) = none) :
    caltSearch g n = caltSearch g m := by
  induction n with
  | zero => cases Nat.le_zero.mp hmn; rfl
  | succ n ihn =>
      rcases Nat.lt_or_ge m (n + 1) with h | h
      · rw [caltSearch_step, hfail (n + 1) h (le_refl _)]
        exact ihn (Nat.lt_succ_iff.mp h) (fun j hj1 hj2 => hfail j hj1 (Nat.le_succ_of_le hj2))
      · rw [le_antisymm hmn h]

/-- The calt regex on `base ++ suffix` for a suffix whose proper tails all
fail: the greedy `(.+)` lands exactly on the appended suffix. -/
theorem caltMatch_append (b s : GName) (kd : List Char × Option (List Char)) (hb : b ≠ [])
    (hsfail : ∀ k, 1 ≤ k → suffixAltMatch (s.drop k) = none)
    (hs0 : suffixAltMatch s = some kd) (hslen : 1 ≤ s.length) :
    caltMatch (b ++ s) = some (b, kd.1, kd.2) := by
  unfold caltMatch
  have hglen : (b ++ s).length = b.length + s.length := List.length_append _ _
  have hge : b.length ≤ (b ++ s).length - 1 := by omega
  rw [caltSearch_ge (b ++ s) b.length ((b ++ s).length - 1) hge ?fail]
  case fail =>
    intro j hj1 hj2
    have hdj : (b ++ s).drop j = s.drop (j - b.length) := by
      rw [show j = b.length + (j - b.length) by omega, List.drop_append]
      congr 1
      omega
    rw [hdj]
    exact hsfail _ (by omega)
  cases b with
  | nil => exact absurd rfl hb
  | cons c b' =>
      rw [show (c :: b').length = b'.length + 1 from rfl, caltSearch_step]
      have hdrop : (c :: b' ++ s).drop (b'.length + 1) = s := by
        rw [show b'.length + 1 = (c :: b').length from rfl]
        exact List.drop_left _ _
      have htake : (c :: b' ++ s).take (b'.length + 1) = c :: b' := by
        rw [show b'.length + 1 = (c :: b').length from rfl]
        exact List.take_left _ _
      rw [hdrop, hs0, htake]

theorem alt_tail_fail : ∀ k, 1 ≤ k → suffixAltMatch (".alt".toList.drop k) = none := by
  intro k hk
  match k, hk with
  | 1, _ => rfl
  | 2, _ => rfl
  | 3, _ => rfl
  | (n + 4), _ =>
      rw [List.drop_eq_nil_of_le (by simp)]
      rfl

theorem alt01_tail_fail : ∀ k, 1 ≤ k → suffixAltMatch (".alt01".toList.drop k) = none := by
  intro k hk
  match k, hk with
  | 1, _ => rfl
  | 2, _ => rfl
  | 3, _ => rfl
  | 4, _ => rfl
  | 5, _ => rfl
  | (n + 6), _ =>
      rw [List.drop_eq_nil_of_le (by simp)]
      rfl

theorem alt03_tail_fail : ∀ k, 1 ≤ k → suffixAltMatch (".alt03".toList.drop k) = none := by
  intro k hk
  match k, hk with
  | 1, _ => rfl
  | 2, _ => rfl
  | 3, _ => rfl
  | 4, _ => rfl
  | 5, _ => rfl
  | (n + 6), _ =>
      rw [List.drop_eq_nil_of_le (by simp)]
      rfl

theorem caltMatch_alt (b : GName) (hb : b ≠ []) :
    caltMatch (b ++ ".alt".toList) = some (b, "alt".toList, none) :=
  caltMatch_append b _ ("alt".toList, none) hb alt_tail_fail rfl (by simp)

theorem caltMatch_alt01 (b : GName) (hb : b ≠ []) :
    caltMatch (b ++ ".alt01".toList) = some (b, "alt".toList, some ['0', '1']) :=
  caltMatch_append b _ ("alt".toList, some ['0', '1']) hb alt01_tail_fail rfl (by simp)

theorem caltMatch_alt03 (b : GName) (hb : b ≠ []) :
    caltMatch (b ++ ".alt03".toList) = some (b, "alt".toList, some ['0', '3']) :=
  caltMatch_append b _ ("alt".toList, some ['0', '3']) hb alt03_tail_fail rfl (by simp)

/-- A suffix test fails when the last characters disagree. -/
theorem isSuffixOf_eq_false_of_getLast_ne {l1 l2 : List Char} {c1 c2 : Char}
    (h1 : l1.getLast? = some c1) (h2 : l2.getLast? = some c2) (hne : c1 ≠ c2) :
    l1.isSuffixOf l2 = false := by
  rw [Bool.eq_false_iff]
  intro hsuf
  obtain ⟨t, rfl⟩ := List.isSuffixOf_iff_suffix.mp hsuf
  rw [List.getLast?_append_of_ne_nil t (by
    intro hnil
    rw [hnil] at h1
    simp at h1), h1] at h2
  exact hne (Option.some.inj h2)

theorem getLast_append_right {b s : List Char} {c : Char} (hs : s.getLast? = some c) :
    (b ++ s).getLast? = some c := by
  rw [List.getLast?_append_of_ne_nil b (by
    intro hnil
    rw [hnil] at hs
    simp at hs)]
  exact hs

theorem isSuffixOf_append_self (b s : List Char) : s.isSuffixOf (b ++ s) = true :=
  List.isSuffixOf_iff_suffix.mpr ⟨b, rfl⟩

/-- Base extraction in `saltLoop`: dropping a suffix of the same length. -/
theorem take_sub_append (b s : List Char) (hlen : n = s.length) :
    (b ++ s).take ((b ++ s).length - n) = b := by
  subst hlen
  rw [List.length_append, Nat.add_sub_cancel]
  exact List.take_left _ _

/-- `saltLoop` on `b ++ ".alt"`: plain `.alt` defers to calt when the base
exists; when it does not, the remaining patterns do not match either. -/
theorem saltLoop_alt_none (order : List GName) (b : GName) (hb : b ≠ []) :
    saltLoop order (b ++ ".alt".toList) saltPatterns = none := by
  have hsuf1 : ".alt".toList.isSuffixOf (b ++ ".alt".toList) = true :=
    isSuffixOf_append_self _ _
  have hlast : (b ++ ".alt".toList).getLast? = some 't' := getLast_append_right rfl
  have hsuf2 : ".alt01".toList.isSuffixOf (b ++ ".alt".toList) = false :=
    isSuffixOf_eq_false_of_getLast_ne rfl hlast (by decide)
  have hsuf3 : ".alt02".toList.isSuffixOf (b ++ ".alt".toList) = false :=
    isSuffixOf_eq_false_of_getLast_ne rfl hlast (by decide)
  have htake : (b ++ ".alt".toList).take ((b ++ ".alt".toList).length - 4) = b :=
    take_sub_append b _ rfl
  simp only [saltPatterns, List.map_cons, List.map_nil, saltLoop, hsuf1, if_pos,
    hsuf2, hsuf3, Bool.false_eq_true, if_neg, not_false_iff]
  rw [show (".alt".toList : List Char).length = 4 from rfl, htake]
  by_cases hc : order.contains b
  · simp only [hc, if_pos, caltMatch_alt b hb]
    try simp [saltLoop]
  · simp only [hc, Bool.false_eq_true, if_neg, not_false_iff]
    try simp [saltLoop]

/-- `saltLoop` accepts `b ++ ".alt01"` when the base exists. -/
theorem saltLoop_alt01_some (order : List GName) (b : GName) (hb : b ≠ [])
    (hcb : order.contains b = true) :
    saltLoop order (b ++ ".alt01".toList) saltPatterns =
      some (b, b ++ ".alt01".toList) := by
  have hlast : (b ++ ".alt01".toList).getLast? = some '1' := getLast_append_right rfl
  have hsuf1 : ".alt".toList.isSuffixOf (b ++ ".alt01".toList) = false :=
    isSuffixOf_eq_false_of_getLast_ne rfl hlast (by decide)
  have hsuf2 : ".alt01".toList.isSuffixOf (b ++ ".alt01".toList) = true :=
    isSuffixOf_append_self _ _
  have htake : (b ++ ".alt01".toList).take ((b ++ ".alt01".toList).length - 6) = b :=
    take_sub_append b _ rfl
  simp only [saltPatterns, List.map_cons, List.map_nil, saltLoop, hsuf1,
    Bool.false_eq_true, if_neg, not_false_iff, hsuf2, if_pos]
  rw [show (".alt01".toList : List Char).length = 6 from rfl, htake]
  simp only [hcb, if_pos, caltMatch_alt01 b hb]

/-- `saltLoop` rejects `b ++ ".alt03"`: no salt pattern matches. -/
theorem saltLoop_alt03_none (order : List GName) (b : GName) (_hb : b ≠ []) :
    saltLoop order (b ++ ".alt03".toList) saltPatterns = none := by
  have hlast : (b ++ ".alt03".toList).getLast? = some '3' := getLast_append_right rfl
  have hsuf1 : ".alt".toList.isSuffixOf (b ++ ".alt03".toList) = false :=
    isSuffixOf_eq_false_of_getLast_ne rfl hlast (by decide)
  have hsuf2 : ".alt01".toList.isSuffixOf (b ++ ".alt03".toList) = false :=
    isSuffixOf_eq_false_of_getLast_ne rfl hlast (by decide)
  have hsuf3 : ".alt02".toList.isSuffixOf (b ++ ".alt03".toList) = false :=
    isSuffixOf_eq_false_of_getLast_ne rfl hlast (by decide)
  simp only [saltPatterns, List.map_cons, List.map_nil, saltLoop, hsuf1, hsuf2, hsuf3,
    Bool.false_eq_true, if_neg, not_false_iff]

/-- `saltLoop` only ever returns the glyph it examined as the second
component. -/
theorem saltLoop_snd (order : List GName) (g : GName) (pats : List GName)
    (p : GName × GName) (h : saltLoop order g pats = some p) : p.2 = g := by
  induction pats with
  | nil => cases h
  | cons pat rest ih =>
      unfold saltLoop at h
      dsimp only at h
      repeat' split at h
      all_goals try exact ih h
      all_goals try cases h
      all_goals exact rfl

theorem mem_detect_salt {order : List GName} {g : GName} {p : GName × GName}
    (h : saltLoop order g saltPatterns = some p) (hg : g ∈ order) :
    p ∈ detect_stylistic_alternates order :=
  List.mem_filterMap.mpr ⟨g, hg, h⟩

theorem not_salt_of_loop_none {order : List GName} {g : GName}
    (hnone : saltLoop order g saltPatterns = none) :
    ∀ p ∈ detect_stylistic_alternates order, p.2 ≠ g := by
  intro p hp heq
  obtain ⟨g2, _, hg2⟩ := List.mem_filterMap.mp hp
  have := saltLoop_snd order g2 saltPatterns p hg2
  rw [this] at heq
  subst heq
  rw [hnone] at hg2
  cases hg2

theorem mem_detect_contextual {order : List GName} {g b : GName}
    {kind : List Char} {ds : Option (List Char)}
    (hcm : caltMatch g = some (b, kind, ds)) (hcb : order.contains b = true)
    (hg : g ∈ order) : (b, g) ∈ detect_contextual_alternates order := by
  refine List.mem_filterMap.mpr ⟨g, hg, ?_⟩
  dsimp only
  rw [hcm]
  simpa using hcb

/-- C6: the claim is false on the code.  The digit-suffixed name `a.alt01` IS
classified as a contextual alternate (the calt pattern's digit group is
optional), and the digit-suffixed name `a.alt03` is NOT detected as a
stylistic alternate (the salt suffix list only contains `.alt`, `.alt01`,
`.alt02`). -/
theorem c6_counterexample :
    ("a".toList, "a.alt01".toList) ∈ detect_contextual_alternates c6_order ∧
    ("a".toList, "a.alt03".toList) ∉ detect_stylistic_alternates c6_order := by
  decide

/-- C6 (amended): a bare `.alt` name whose base exists is a contextual
alternate and is never a salt detection; a `.alt01` name whose base exists is
detected as salt AND also as contextual (the calt pattern matches digit
suffixes too); a `.altNN` name with NN outside the fixed list {01, 02} (for
example `.alt03`) is never a salt detection. -/
theorem c6_amended :
    (∀ (b : GName) (order : List GName), b ≠ [] → order.contains b = true →
        (b ++ ".alt".toList) ∈ order →
        ((b, b ++ ".alt".toList) ∈ detect_contextual_alternates order ∧
          ∀ p ∈ detect_stylistic_alternates order, p.2 ≠ b ++ ".alt".toList)) ∧
    (∀ (b : GName) (order : List GName), b ≠ [] → order.contains b = true →
        (b ++ ".alt01".toList) ∈ order →
        ((b, b ++ ".alt01".toList) ∈ detect_stylistic_alternates order ∧
          (b, b ++ ".alt01".toList) ∈ detect_contextual_alternates order)) ∧
    (∀ (b : GName) (order : List GName), b ≠ [] →
        ∀ p ∈ detect_stylistic_alternates order, p.2 ≠ b ++ ".alt03".toList) := by
  refine ⟨?_, ?_, ?_⟩
  · intro b order hb hcb hg
    exact ⟨mem_detect_contextual (caltMatch_alt b hb) hcb hg,
      not_salt_of_loop_none (saltLoop_alt_none order b hb)⟩
  · intro b order hb hcb hg
    exact ⟨mem_detect_salt (saltLoop_alt01_some order b hb hcb) hg,
      mem_detect_contextual (caltMatch_alt01 b hb) hcb hg⟩
  · intro b order hb
    exact not_salt_of_loop_none (saltLoop_alt03_none order b hb)

/-- C6 witness: the amended theorem applied at base `a` with the universe
`{a, a.alt, a.alt01}`. -/
theorem c6_amended_witness :
    ("a".toList, "a.alt".toList) ∈
      detect_contextual_alternates (["a", "a.alt", "a.alt01"].map String.toList) ∧
    (∀ p ∈ detect_stylistic_alternates (["a", "a.alt", "a.alt01"].map String.toList),
      p.2 ≠ "a.alt".toList) ∧
    ("a".toList, "a.alt01".toList) ∈
      detect_stylistic_alternates (["a", "a.alt", "a.alt01"].map String.toList) := by
  refine ⟨?_, ?_, ?_⟩
  · exact (c6_amended.1 "a".toList (["a", "a.alt", "a.alt01"].map String.toList)
      (by decide) (by decide) (by decide)).1
  · exact (c6_amended.1 "a".toList (["a", "a.alt", "a.alt01"].map String.toList)
      (by decide) (by decide) (by decide)).2
  · exact (c6_amended.2.1 "a".toList (["a", "a.alt", "a.alt01"].map String.toList)
      (by decide) (by decide) (by decide)).1

/-- C4 witness: the soundness theorem applied at a concrete detected set and
index, discharging the membership hypotheses by evaluation. -/
theorem c4_dedup_soundness_witness :
    ((["f", "i"] : List String), ("f_i" : String)) ∈
      (filter_against_existing { liga := some [(["f", "i"], "f_i")] }
        ⟨[["f", "f"]], []⟩).liga :=
  ((c4_dedup_soundness.1 { liga := some [(["f", "i"], "f_i")] } ⟨[["f", "f"]], []⟩).1
    (["f", "i"], "f_i")).1.mpr ⟨by decide, by decide⟩

/-- C8 witness: the general half-threshold consequence applied at the
accepted concrete candidate. -/
theorem c8_half_threshold_witness :
    (parse_ligature_components c8_font4 "a_b_c_d".toList).length ≤
      2 * ((parse_ligature_components c8_font4 "a_b_c_d".toList).filter
        (inCmapImage c8_font4)).length :=
  c8_half_threshold.2.2.2 c8_font4 "a_b_c_d".toList (by decide)

/-! ## C10 — fully-duplicated stylistic-set groups disappear -/

/-- Association lookup is unique under key-nodup. -/
theorem assoc_unique_of_nodup {α β : Type} [DecidableEq α] {l : List (α × β)}
    (hnd : (l.map Prod.fst).Nodup) {a : α} {b1 b2 : β}
    (h1 : (a, b1) ∈ l) (h2 : (a, b2) ∈ l) : b1 = b2 := by
  induction l with
  | nil => cases h1
  | cons hd tl ih =>
      rw [List.map_cons, List.nodup_cons] at hnd
      rcases List.mem_cons.mp h1 with e1 | m1 <;> rcases List.mem_cons.mp h2 with e2 | m2
      · rw [← e1] at e2
        exact (Prod.mk.injEq _ _ _ _).mp e2.symm |>.2
      · exfalso
        apply hnd.1
        rw [← e1]
        exact List.mem_map.mpr ⟨(a, b2), m2, rfl⟩
      · exfalso
        apply hnd.1
        rw [← e2]
        exact List.mem_map.mpr ⟨(a, b1), m1, rfl⟩
      · exact ih hnd.2 m1 m2

/-- C10: if every (base, variant) pair of a detected stylistic-set group is
already in the existing single-substitution set, the group's number is
entirely absent from the filtered `stylistic_sets` mapping. -/
theorem c10_fully_duplicated_group_dropped
    (detected : DetectedFeatures) (existing : ExistingSubs)
    (hnd : ((detected.stylistic_sets.getD []).map Prod.fst).Nodup)
    (ssn : Nat) (subs : List (String × String))
    (hmem : (ssn, subs) ∈ detected.stylistic_sets.getD [])
    (hall : ∀ p ∈ subs, p ∈ existing.single) :
    ∀ entry ∈ (filter_against_existing detected existing).stylistic_sets,
      entry.1 ≠ ssn := by
  intro entry hentry heq
  simp only [filter_against_existing] at hentry
  cases hd : detected.stylistic_sets with
  | none => rw [hd] at hmem; cases hmem
  | some ss =>
      rw [hd] at hentry hmem hnd
      simp only [Option.getD_some] at hmem hnd
      obtain ⟨g, hg, hgeq⟩ := List.mem_filterMap.mp hentry
      by_cases hk : g.2.filter (fun c => ¬ existing.single.contains c) = []
      · rw [if_pos hk] at hgeq
        cases hgeq
      · rw [if_neg hk] at hgeq
        have hfst : g.1 = ssn := by
          have hpair := Option.some.inj hgeq
          have := congrArg Prod.fst hpair
          simpa [heq] using this
        have hgpair : (ssn, g.2) ∈ ss := by
          rw [← hfst]
          exact hg
        have hsub : g.2 = subs := assoc_unique_of_nodup hnd hgpair hmem
        apply hk
        rw [hsub, List.filter_eq_nil_iff]
        intro p hp
        simpa using hall p hp

/-- C10 witness: the theorem applied at the concrete one-group input. -/
theorem c10_witness :
    (1, [(("a" : String), ("a.alt1" : String))]) ∉
      (filter_against_existing c10_detected c10_existing).stylistic_sets :=
  fun hmem =>
    c10_fully_duplicated_group_dropped c10_detected c10_existing (by decide) 1
      [("a", "a.alt1")] (by decide) (by decide) _ hmem rfl

/-! ## C1 and C2 — infrastructure lemmas for the audit loop -/

theorem has_windows_iff {names : List (Int × String)} {nid : Int} :
    has_windows_name_id names nid = true ↔ nid ∈ names.map Prod.fst := by
  simp only [has_windows_name_id, List.any_eq_true, List.mem_map, decide_eq_true_eq]

theorem setName_map_fst (names : List (Int × String)) (nid : Int) (s : String) :
    (setName names nid s).map Prod.fst = names.map Prod.fst ∨
    (setName names nid s).map Prod.fst = names.map Prod.fst ++ [nid] := by
  unfold setName
  split
  · left
    rw [List.map_map]
    apply List.map_congr_left
    intro r _
    by_cases he : r.1 = nid <;> simp [he]
  · right
    simp

theorem has_windows_setName_self (names : List (Int × String)) (nid : Int) (s : String) :
    has_windows_name_id (setName names nid s) nid = true := by
  rw [has_windows_iff]
  unfold setName
  split
  · rename_i hany
    simp only [List.any_eq_true, decide_eq_true_eq] at hany
    obtain ⟨r, hr, hre⟩ := hany
    rw [List.map_map]
    refine List.mem_map.mpr ⟨r, hr, ?_⟩
    simp [hre]
  · simp

theorem has_windows_setName_mono {names : List (Int × String)} {nid' : Int}
    (nid : Int) (s : String) (h : has_windows_name_id names nid' = true) :
    has_windows_name_id (setName names nid s) nid' = true := by
  rw [has_windows_iff] at h ⊢
  rcases setName_map_fst names nid s with he | he
  · rw [he]; exact h
  · rw [he]; exact List.mem_append_left _ h

theorem has_windows_setName_cases {names : List (Int × String)} {nid nid' : Int}
    {s : String} (h : has_windows_name_id (setName names nid s) nid' = true) :
    has_windows_name_id names nid' = true ∨ nid' = nid := by
  rw [has_windows_iff] at h
  rcases setName_map_fst names nid s with he | he
  · rw [he] at h
    exact Or.inl (has_windows_iff.mpr h)
  · rw [he] at h
    rcases List.mem_append.mp h with h2 | h2
    · exact Or.inl (has_windows_iff.mpr h2)
    · right
      simpa using h2

theorem countP_lt_of_mem {l : List Int} {cand : Int} (h : cand ∈ l) :
    l.countP (fun x => cand + 1 ≤ x) < l.countP (fun x => cand ≤ x) := by
  induction l with
  | nil => cases h
  | cons x t ih =>
      rw [List.countP_cons, List.countP_cons]
      rcases List.mem_cons.mp h with rfl | hmem
      · have hmono : t.countP (fun x => decide (cand + 1 ≤ x)) ≤
            t.countP (fun x => decide (cand ≤ x)) :=
          List.countP_mono_left (fun a _ hpa => by
            simp only [decide_eq_true_eq] at hpa ⊢
            omega)
        simp only [show decide (cand + 1 ≤ cand) = false by simp,
          show decide (cand ≤ cand) = true by simp]
        simp only [Bool.false_eq_true, if_false, if_true]
        omega
      · have hlt := ih hmem
        by_cases h1 : cand + 1 ≤ x <;> by_cases h2 : cand ≤ x <;>
          simp [h1, h2] <;> omega

/-- The allocation loop skips every reserved value (pigeonhole on the count of
reserved values at or above the cursor). -/
theorem allocFrom_not_mem (reserved : List Int) :
    ∀ (fuel : Nat) (cand : Int),
      reserved.countP (fun x => cand ≤ x) < fuel →
      reserved.contains (allocFrom reserved fuel cand) = false := by
  intro fuel
  induction fuel with
  | zero => intro cand h; omega
  | succ n ih =>
      intro cand h
      unfold allocFrom
      by_cases hc : reserved.contains cand
      · rw [if_pos hc]
        apply ih
        have hmem : cand ∈ reserved := by simpa using hc
        have := countP_lt_of_mem hmem
        omega
      · rw [if_neg hc]
        simpa using hc

theorem allocFrom_ge (reserved : List Int) :
    ∀ (fuel : Nat) (cand : Int), cand ≤ allocFrom reserved fuel cand := by
  intro fuel
  induction fuel with
  | zero => intro cand; exact le_refl _
  | succ n ih =>
      intro cand
      unfold allocFrom
      split
      · exact le_trans (by omega) (ih (cand + 1))
      · exact le_refl _

theorem allocate_not_reserved (f : AuditFont) (exclude : List Int) :
    (f.names.map Prod.fst ++ exclude ++ collect_used_name_ids f).contains
      (allocate_unique_id f exclude) = false := by
  unfold allocate_unique_id
  apply allocFrom_not_mem
  calc (f.names.map Prod.fst ++ exclude ++ collect_used_name_ids f).countP _
      ≤ (f.names.map Prod.fst ++ exclude ++ collect_used_name_ids f).length :=
        List.countP_le_length _
    _ < _ + 1 := Nat.lt_succ_self _

theorem allocate_ge (f : AuditFont) (exclude : List Int) :
    256 ≤ allocate_unique_id f exclude :=
  allocFrom_ge _ _ _

/-- Elements never appear in a name table they are not recorded in. -/
theorem has_windows_eq_false_of_not_mem {names : List (Int × String)} {nid : Int}
    (h : nid ∉ names.map Prod.fst) : has_windows_name_id names nid = false := by
  rw [Bool.eq_false_iff]
  intro hw
  exact h (has_windows_iff.mp hw)

/-! ### refIdsOfParams membership -/

theorem refIds_foldl_mem (ps : List FeatureParamsSS) :
    ∀ (acc : List Int) (x : Int),
      x ∈ ps.foldl (fun acc p =>
        match p.UINameID with
        | some nid => if 256 ≤ nid ∧ ¬ acc.contains nid then acc ++ [nid] else acc
        | none => acc) acc ↔
      x ∈ acc ∨ (256 ≤ x ∧ ∃ p ∈ ps, p.UINameID = some x) := by
  induction ps with
  | nil => intro acc x; simp
  | cons p t ih =>
      intro acc x
      rw [List.foldl_cons]
      cases hp : p.UINameID with
      | none =>
          rw [ih]
          constructor
          · rintro (h | ⟨hge, q, hq, hqe⟩)
            · exact Or.inl h
            · exact Or.inr ⟨hge, q, List.mem_cons_of_mem _ hq, hqe⟩
          · rintro (h | ⟨hge, q, hq, hqe⟩)
            · exact Or.inl h
            · rcases List.mem_cons.mp hq with rfl | hq2
              · rw [hp] at hqe; cases hqe
              · exact Or.inr ⟨hge, q, hq2, hqe⟩
      | some nid =>
          dsimp only
          by_cases hcond : 256 ≤ nid ∧ ¬ (acc.contains nid = true)
          · rw [if_pos hcond, ih]
            constructor
            · rintro (h | ⟨hge, q, hq, hqe⟩)
              · rcases List.mem_append.mp h with h2 | h2
                · exact Or.inl h2
                · simp only [List.mem_singleton] at h2
                  subst h2
                  exact Or.inr ⟨hcond.1, p, List.mem_cons_self _ _, hp⟩
              · exact Or.inr ⟨hge, q, List.mem_cons_of_mem _ hq, hqe⟩
            · rintro (h | ⟨hge, q, hq, hqe⟩)
              · exact Or.inl (List.mem_append_left _ h)
              · rcases List.mem_cons.mp hq with rfl | hq2
                · rw [hp] at hqe
                  injection hqe with he
                  subst he
                  exact Or.inl (List.mem_append_right _ (by simp))
                · exact Or.inr ⟨hge, q, hq2, hqe⟩
          · rw [if_neg hcond, ih]
            constructor
            · rintro (h | ⟨hge, q, hq, hqe⟩)
              · exact Or.inl h
              · exact Or.inr ⟨hge, q, List.mem_cons_of_mem _ hq, hqe⟩
            · rintro (h | ⟨hge, q, hq, hqe⟩)
              · exact Or.inl h
              · rcases List.mem_cons.mp hq with rfl | hq2
                · rw [hp] at hqe
                  injection hqe with he
                  subst he
                  rcases not_and_or.mp hcond with hlt | hmem
                  · exact absurd hge hlt
                  · rw [not_not] at hmem
                    exact Or.inl (by simpa using hmem)
                · exact Or.inr ⟨hge, q, hq2, hqe⟩

theorem mem_refIdsOfParams {ps : List FeatureParamsSS} {x : Int} :
    x ∈ refIdsOfParams ps ↔ 256 ≤ x ∧ ∃ p ∈ ps, p.UINameID = some x := by
  unfold refIdsOfParams
  rw [refIds_foldl_mem]
  simp

/-! ### sortGroups is a permutation -/

theorem insertSorted_perm (p : Nat × List SSRecord) (l : List (Nat × List SSRecord)) :
    (insertSorted p l).Perm (p :: l) := by
  induction l with
  | nil => exact List.Perm.refl _
  | cons q t ih =>
      unfold insertSorted
      split
      · exact List.Perm.refl _
      · exact ((ih.cons q).trans (List.Perm.swap p q t))

theorem sortGroups_perm (l : List (Nat × List SSRecord)) : (sortGroups l).Perm l := by
  induction l with
  | nil => exact List.Perm.refl _
  | cons p t ih => exact (insertSorted_perm p (sortGroups t)).trans (ih.cons p)

/-! ### Parameter-block preservation through ensure / normalize -/

theorem updParamsRecords_filterMap (recs : List SSRecord) (g : FeatureParamsSS → FeatureParamsSS) :
    (updParamsRecords recs g).filterMap (fun r => r.FeatureParams) =
      ((recs.filterMap (fun r => r.FeatureParams)).map g) := by
  induction recs with
  | nil => rfl
  | cons r t ih =>
      cases hr : r.FeatureParams <;>
        simp [updParamsRecords, List.filterMap_cons, hr, ih, updParamsRecords] at ih ⊢ <;>
        exact ih

/-- UINameID membership in the group's parameter blocks is unchanged by
`ensure_feature_params` (created blocks carry `UINameID = None`) and by
`normalize_versions` (which only touches `Version`). -/
theorem prep_uin_iff (recs : List SSRecord) (ss : Nat) (addMissing : Bool) (x : Int) :
    (∃ p ∈ ((normalize_versions (ensure_feature_params recs ss true addMissing false).records
        ss true).1.filterMap (fun r => r.FeatureParams)), p.UINameID = some x) ↔
    (∃ p ∈ recs.filterMap (fun r => r.FeatureParams), p.UINameID = some x) := by
  have hnorm : ∀ (rs : List SSRecord),
      (∃ p ∈ ((normalize_versions rs ss true).1.filterMap (fun r => r.FeatureParams)),
        p.UINameID = some x) ↔
      (∃ p ∈ rs.filterMap (fun r => r.FeatureParams), p.UINameID = some x) := by
    intro rs
    unfold normalize_versions
    dsimp only
    rw [if_pos rfl, updParamsRecords_filterMap]
    constructor
    · rintro ⟨p, hp, hpe⟩
      obtain ⟨q, hq, hqe⟩ := List.mem_map.mp hp
      refine ⟨q, hq, ?_⟩
      rw [← hpe, ← hqe]
      by_cases hv : q.Version ≠ 0 <;> simp [hv]
    · rintro ⟨p, hp, hpe⟩
      refine ⟨if p.Version ≠ 0 then { p with Version := 0 } else p,
        List.mem_map.mpr ⟨p, hp, rfl⟩, ?_⟩
      by_cases hv : p.Version ≠ 0 <;> simp [hv, hpe]
  rw [hnorm]
  unfold ensure_feature_params
  dsimp only
  by_cases hcr : true = true ∧ addMissing = true ∧
      0 < (recs.filter (fun r => r.FeatureParams.isNone)).length
  · rw [if_pos hcr, List.filterMap_map]
    constructor
    · rintro ⟨p, hp, hpe⟩
      obtain ⟨r, hr, hre⟩ := List.mem_filterMap.mp hp
      dsimp only [Function.comp] at hre
      by_cases hn : r.FeatureParams.isNone
      · rw [if_pos hn] at hre
        injection hre with he
        rw [← he] at hpe
        cases hpe
      · rw [if_neg hn] at hre
        exact ⟨p, List.mem_filterMap.mpr ⟨r, hr, hre⟩, hpe⟩
    · rintro ⟨p, hp, hpe⟩
      obtain ⟨r, hr, hre⟩ := List.mem_filterMap.mp hp
      refine ⟨p, List.mem_filterMap.mpr ⟨r, hr, ?_⟩, hpe⟩
      dsimp only [Function.comp]
      have hn : ¬ r.FeatureParams.isNone := by
        rw [hre]
        simp
      rw [if_neg hn]
      exact hre
  · rw [if_neg hcr]

/-- Membership form of the group's referenced identifiers after preparation. -/
theorem refIds_prep_mem (recs : List SSRecord) (ss : Nat) (addMissing : Bool) (x : Int) :
    x ∈ refIdsOfParams ((normalize_versions
        (ensure_feature_params recs ss true addMissing false).records ss true).1.filterMap
          (fun r => r.FeatureParams)) ↔
      x ∈ refIdsOfRecords recs := by
  rw [mem_refIdsOfParams]
  unfold refIdsOfRecords
  rw [mem_refIdsOfParams]
  rw [and_congr_right_iff]
  intro _
  exact prep_uin_iff recs ss addMissing x

/-! ### Characterization of `resolve` in apply mode -/

theorem resolveStep3_charc (f : AuditFont) (refBySS : List (Nat × List Int))
    (usageKeys : List Int) (ss : Nat) (labels : List (Nat × String))
    (pre : List RLine) (flagged : Bool) :
    ∃ t : Int,
      (resolveStep3 f refBySS usageKeys ss labels false true pre flagged).target = some t ∧
      256 ≤ t ∧
      (∀ nid, has_windows_name_id f.names nid = true →
        has_windows_name_id (resolveStep3 f refBySS usageKeys ss labels false true pre
          flagged).f.names nid = true) ∧
      has_windows_name_id (resolveStep3 f refBySS usageKeys ss labels false true pre
        flagged).f.names t = true ∧
      (∀ nid, has_windows_name_id (resolveStep3 f refBySS usageKeys ss labels false true pre
          flagged).f.names nid = true →
        has_windows_name_id f.names nid = true ∨ nid = t) ∧
      has_windows_name_id f.names t = false ∧ noOtherRef refBySS ss t := by
  unfold resolveStep3
  dsimp only
  rw [if_pos rfl]
  refine ⟨_, rfl, allocate_ge f _, ?_, ?_, ?_, ?_, ?_⟩
  · intro nid h
    exact has_windows_setName_mono _ _ h
  · exact has_windows_setName_self _ _ _
  · intro nid h
    exact has_windows_setName_cases h
  · apply has_windows_eq_false_of_not_mem
    intro hmem
    have hcont := allocate_not_reserved f
      (((refBySS.filter (fun e => e.1 ≠ ss)).map Prod.snd).flatten ++ usageKeys)
    have hnm : allocate_unique_id f
        (((refBySS.filter (fun e => e.1 ≠ ss)).map Prod.snd).flatten ++ usageKeys) ∉
        f.names.map Prod.fst ++
          (((refBySS.filter (fun e => e.1 ≠ ss)).map Prod.snd).flatten ++ usageKeys) ++
          collect_used_name_ids f := by
      simpa using hcont
    exact hnm (List.mem_append_left _ (List.mem_append_left _ hmem))
  · intro e he hene hmem2
    have hcont := allocate_not_reserved f
      (((refBySS.filter (fun e => e.1 ≠ ss)).map Prod.snd).flatten ++ usageKeys)
    have hnm : allocate_unique_id f
        (((refBySS.filter (fun e => e.1 ≠ ss)).map Prod.snd).flatten ++ usageKeys) ∉
        f.names.map Prod.fst ++
          (((refBySS.filter (fun e => e.1 ≠ ss)).map Prod.snd).flatten ++ usageKeys) ++
          collect_used_name_ids f := by
      simpa using hcont
    apply hnm
    apply List.mem_append_left
    apply List.mem_append_right
    apply List.mem_append_left
    rw [List.mem_flatten]
    exact ⟨e.2, List.mem_map.mpr ⟨e, List.mem_filter.mpr ⟨he, by simpa using hene⟩, rfl⟩, hmem2⟩

/-- Characterization of `NameIDResolver.resolve` in apply mode: a target is
always produced; it satisfies either the reuse facts (referenced by the group
and already labeled) or the fresh facts (unlabeled before the call and
referenced by no other group); the name table only grows, and the only
possibly-new record is the target's. -/
theorem resolve_charc (f : AuditFont) (refBySS : List (Nat × List Int))
    (usageKeys : List Int) (ss : Nat) (params : List FeatureParamsSS)
    (labels : List (Nat × String)) :
    ∃ t : Int,
      (resolve f refBySS usageKeys ss params labels false true).target = some t ∧
      256 ≤ t ∧
      (∀ nid, has_windows_name_id f.names nid = true →
        has_windows_name_id (resolve f refBySS usageKeys ss params labels false
          true).f.names nid = true) ∧
      has_windows_name_id (resolve f refBySS usageKeys ss params labels false
        true).f.names t = true ∧
      (∀ nid, has_windows_name_id (resolve f refBySS usageKeys ss params labels false
          true).f.names nid = true →
        has_windows_name_id f.names nid = true ∨ nid = t) ∧
      ((t ∈ refIdsOfParams params ∧ has_windows_name_id f.names t = true) ∨
        (has_windows_name_id f.names t = false ∧ noOtherRef refBySS ss t)) := by
  unfold resolve
  dsimp only
  cases hvm : (refIdsOfParams params |>.filter
      (fun nid => has_windows_name_id f.names nid)).min? with
  | some t =>
      dsimp only
      have htmem := List.min?_mem (fun x y => min_choice x y) hvm
      rw [List.mem_filter] at htmem
      refine ⟨t, rfl, (mem_refIdsOfParams.mp htmem.1).1, fun nid h => h, htmem.2, fun nid h =>
        Or.inl h, Or.inl ⟨htmem.1, htmem.2⟩⟩
  | none =>
      have hvnil := List.min?_eq_none_iff.mp hvm
      have hnotlab : ∀ x ∈ refIdsOfParams params,
          has_windows_name_id f.names x = false := by
        intro x hx
        rw [Bool.eq_false_iff]
        intro hw
        have : x ∈ (refIdsOfParams params |>.filter
            (fun nid => has_windows_name_id f.names nid)) :=
          List.mem_filter.mpr ⟨hx, hw⟩
        rw [hvnil] at this
        cases this
      dsimp only
      cases hgm : (refIdsOfParams params).min? with
      | none =>
          dsimp only
          obtain ⟨t, h1, h2, h3, h4, h5, h6, h7⟩ :=
            resolveStep3_charc f refBySS usageKeys ss labels [] false
          exact ⟨t, h1, h2, h3, h4, h5, Or.inr ⟨h6, h7⟩⟩
      | some cand =>
          dsimp only
          have hcmem := List.min?_mem (fun x y => min_choice x y) hgm
          have hcfalse := hnotlab cand hcmem
          cases hcoll : (refBySS.filter (fun e => e.1 ≠ ss ∧ e.2.contains cand)).head? with
          | some c =>
              dsimp only
              obtain ⟨t, h1, h2, h3, h4, h5, h6, h7⟩ :=
                resolveStep3_charc f refBySS usageKeys ss labels
                  [RLine.refConflict ss c.1 cand, RLine.flagConflict ss cand] true
              exact ⟨t, h1, h2, h3, h4, h5, Or.inr ⟨h6, h7⟩⟩
          | none =>
              dsimp only
              have hcnil : refBySS.filter (fun e => e.1 ≠ ss ∧ e.2.contains cand) = [] := by
                cases hl : refBySS.filter (fun e => e.1 ≠ ss ∧ e.2.contains cand) with
                | nil => rfl
                | cons a l => rw [hl] at hcoll; cases hcoll
              have hnoother : noOtherRef refBySS ss cand := by
                intro e he hene hmem
                have : e ∈ refBySS.filter (fun e => e.1 ≠ ss ∧ e.2.contains cand) :=
                  List.mem_filter.mpr ⟨he, by
                    simp only [decide_eq_true_eq, Bool.and_eq_true]
                    exact ⟨by simpa using hene, by simpa using hmem⟩⟩
                rw [hcnil] at this
                cases this
              rw [show ((true || false) && !has_windows_name_id f.names cand) = true by
                rw [hcfalse]; rfl]
              rw [if_pos rfl]
              unfold ensure_label
              rw [if_pos (by rw [hcfalse]; simp)]
              dsimp only
              rw [if_pos rfl]
              refine ⟨cand, rfl, (mem_refIdsOfParams.mp hcmem).1, ?_, ?_, ?_, ?_⟩
              · intro nid h
                exact has_windows_setName_mono _ _ h
              · exact has_windows_setName_self _ _ _
              · intro nid h
                exact has_windows_setName_cases h
              · exact Or.inr ⟨hcfalse, hnoother⟩

/-! ### Name-table effects of `overwrite_label` and the whole group step -/

theorem overwrite_label_names_facts (f : AuditFont) (t : Int) (ss : Nat)
    (labels : List (Nat × String)) (force : Bool) :
    (∀ nid, has_windows_name_id f.names nid = true →
      has_windows_name_id ((overwrite_label f (some t) ss labels force true).1).names nid
        = true) ∧
    (∀ nid, has_windows_name_id ((overwrite_label f (some t) ss labels force
        true).1).names nid = true →
      has_windows_name_id f.names nid = true ∨ nid = t) := by
  unfold overwrite_label
  cases hl : lookupLabel labels ss with
  | none => exact ⟨fun _ h => h, fun _ h => Or.inl h⟩
  | some desired =>
      dsimp only
      by_cases h1 : (force || ((get_name_strings f.names t).head?).isNone) = true
      · rw [if_pos h1]
        by_cases h2 : (get_name_strings f.names t).head? ≠ some desired
        · rw [if_pos h2, if_pos rfl]
          exact ⟨fun nid h => has_windows_setName_mono _ _ h,
            fun nid h => has_windows_setName_cases h⟩
        · rw [if_neg h2]
          exact ⟨fun _ h => h, fun _ h => Or.inl h⟩
      · rw [if_neg h1]
        exact ⟨fun _ h => h, fun _ h => Or.inl h⟩

/-- Characterization of one apply-mode group iteration: either the group is
skipped (no parameter blocks) and the font is untouched, or a target `t ≥ 256`
is produced such that the name table only grows, `t` ends up labeled, every
newly created record is `t`'s, and `t` is either a previously-labeled id the
group referenced or a previously-unlabeled id no other group references. -/
theorem applyStep_charc (f : AuditFont) (refBySS : List (Nat × List Int))
    (usageKeys : List Int) (addMissing force : Bool) (labels : List (Nat × String))
    (ss : Nat) (recs : List SSRecord) :
    ((applyStep f refBySS usageKeys addMissing force labels ss recs).target = none ∧
      (applyStep f refBySS usageKeys addMissing force labels ss recs).f = f) ∨
    ∃ t : Int,
      (applyStep f refBySS usageKeys addMissing force labels ss recs).target = some t ∧
      256 ≤ t ∧
      (∀ nid, has_windows_name_id f.names nid = true →
        has_windows_name_id (applyStep f refBySS usageKeys addMissing force labels ss
          recs).f.names nid = true) ∧
      has_windows_name_id (applyStep f refBySS usageKeys addMissing force labels ss
        recs).f.names t = true ∧
      (∀ nid, has_windows_name_id (applyStep f refBySS usageKeys addMissing force labels ss
          recs).f.names nid = true →
        has_windows_name_id f.names nid = true ∨ nid = t) ∧
      ((t ∈ refIdsOfRecords recs ∧ has_windows_name_id f.names t = true) ∨
        (has_windows_name_id f.names t = false ∧ noOtherRef refBySS ss t)) := by
  unfold applyStep processGroup
  by_cases hpe : (ensure_feature_params recs ss true addMissing false).params = []
  · rw [if_pos hpe]
    exact Or.inl ⟨rfl, rfl⟩
  · rw [if_neg hpe]
    dsimp only
    obtain ⟨t, ht, hge, hmono, hhas, hcases, hP⟩ := resolve_charc f refBySS usageKeys ss
      ((normalize_versions (ensure_feature_params recs ss true addMissing
        false).records ss true).1.filterMap (fun r => r.FeatureParams)) labels
    rw [ht]
    obtain ⟨olmono, olcases⟩ := overwrite_label_names_facts
      (resolve f refBySS usageKeys ss
        ((normalize_versions (ensure_feature_params recs ss true addMissing
          false).records ss true).1.filterMap (fun r => r.FeatureParams)) labels false
        true).f t ss labels force
    refine Or.inr ⟨t, rfl, hge, ?_, ?_, ?_, ?_⟩
    · intro nid h
      exact olmono nid (hmono nid h)
    · exact olmono t hhas
    · intro nid h
      rcases olcases nid h with h2 | h2
      · exact hcases nid h2
      · exact Or.inr h2
    · rcases hP with ⟨hmem, hlab⟩ | hfresh
      · exact Or.inl ⟨(refIds_prep_mem recs ss addMissing t).mp hmem, hlab⟩
      · exact Or.inr hfresh

/-! ### The C1 loop invariant -/

theorem applyLoop_cons (refBySS : List (Nat × List Int)) (usageKeys : List Int)
    (addMissing force : Bool) (labels : List (Nat × String)) (ss : Nat)
    (recs : List SSRecord) (gl : List (Nat × List SSRecord)) (f : AuditFont) :
    applyLoop refBySS usageKeys addMissing force labels ((ss, recs) :: gl) f =
      ⟨(applyLoop refBySS usageKeys addMissing force labels gl
          { (processGroup f refBySS usageKeys true addMissing false force labels ss
              recs).f with
            groups := updateGroup (processGroup f refBySS usageKeys true addMissing false
              force labels ss recs).f.groups ss
              (processGroup f refBySS usageKeys true addMissing false force labels ss
                recs).records }).f,
        (processGroup f refBySS usageKeys true addMissing false force labels ss
          recs).lines ++
          (applyLoop refBySS usageKeys addMissing force labels gl
            { (processGroup f refBySS usageKeys true addMissing false force labels ss
                recs).f with
              groups := updateGroup (processGroup f refBySS usageKeys true addMissing
                false force labels ss recs).f.groups ss
                (processGroup f refBySS usageKeys true addMissing false force labels ss
                  recs).records }).report,
        ((processGroup f refBySS usageKeys true addMissing false force labels ss
          recs).changed ||
          (applyLoop refBySS usageKeys addMissing force labels gl
            { (processGroup f refBySS usageKeys true addMissing false force labels ss
                recs).f with
              groups := updateGroup (processGroup f refBySS usageKeys true addMissing
                false force labels ss recs).f.groups ss
                (processGroup f refBySS usageKeys true addMissing false force labels ss
                  recs).records }).changed),
        ((processGroup f refBySS usageKeys true addMissing false force labels ss
          recs).flagged ||
          (applyLoop refBySS usageKeys addMissing force labels gl
            { (processGroup f refBySS usageKeys true addMissing false force labels ss
                recs).f with
              groups := updateGroup (processGroup f refBySS usageKeys true addMissing
                false force labels ss recs).f.groups ss
                (processGroup f refBySS usageKeys true addMissing false force labels ss
                  recs).records }).flagged),
        (match (processGroup f refBySS usageKeys true addMissing false force labels ss
            recs).target with
          | some t => (ss, t) ::
              (applyLoop refBySS usageKeys addMissing force labels gl
                { (processGroup f refBySS usageKeys true addMissing false force labels ss
                    recs).f with
                  groups := updateGroup (processGroup f refBySS usageKeys true addMissing
                    false force labels ss recs).f.groups ss
                    (processGroup f refBySS usageKeys true addMissing false force labels
                      ss recs).records }).resolved
          | none =>
              (applyLoop refBySS usageKeys addMissing force labels gl
                { (processGroup f refBySS usageKeys true addMissing false force labels ss
                    recs).f with
                  groups := updateGroup (processGroup f refBySS usageKeys true addMissing
                    false force labels ss recs).f.groups ss
                    (processGroup f refBySS usageKeys true addMissing false force labels
                      ss recs).records }).resolved)⟩ := rfl

theorem applyLoop_c1 (refBySS : List (Nat × List Int)) (usageKeys : List Int)
    (addMissing force : Bool) (labels : List (Nat × String))
    (names0 : List (Int × String)) :
    ∀ (gl : List (Nat × List SSRecord)) (f : AuditFont) (acc : List (Nat × Int)),
      (gl.map Prod.fst).Nodup →
      (∀ g ∈ gl, (g.1, refIdsOfRecords g.2) ∈ refBySS) →
      (∀ p ∈ acc, has_windows_name_id f.names p.2 = true) →
      (∀ p ∈ acc, validSharedR refBySS names0 p.1 p.2 ∨ noOtherRef refBySS p.1 p.2) →
      (∀ p ∈ acc, ∀ q ∈ acc, p.1 ≠ q.1 → p.2 = q.2 →
        validSharedR refBySS names0 p.1 p.2 ∧ validSharedR refBySS names0 q.1 q.2) →
      (∀ nid, has_windows_name_id f.names nid = true →
        has_windows_name_id names0 nid = false →
        ∃ s, (s, nid) ∈ acc ∧ noOtherRef refBySS s nid) →
      (∀ p ∈ acc, ∀ g ∈ gl, p.1 ≠ g.1) →
      ∀ p ∈ acc ++ (applyLoop refBySS usageKeys addMissing force labels gl f).resolved,
        ∀ q ∈ acc ++ (applyLoop refBySS usageKeys addMissing force labels gl f).resolved,
          p.1 ≠ q.1 → p.2 = q.2 →
          validSharedR refBySS names0 p.1 p.2 ∧ validSharedR refBySS names0 q.1 q.2 := by
  intro gl
  induction gl with
  | nil =>
      intro f acc _ _ _ _ pre3 _ _ p hp q hq hne heq
      simp only [applyLoop, auditLoop, List.append_nil] at hp hq
      exact pre3 p hp q hq hne heq
  | cons hd gl2 ih =>
      obtain ⟨ss, recs⟩ := hd
      intro f acc hglnd hcov pre1 pre2 pre3 pre4 pre5
      have hnd2 : (gl2.map Prod.fst).Nodup := by
        rw [List.map_cons, List.nodup_cons] at hglnd
        exact hglnd.2
      have hssnot : ss ∉ gl2.map Prod.fst := by
        rw [List.map_cons, List.nodup_cons] at hglnd
        exact hglnd.1
      have hcov2 : ∀ g ∈ gl2, (g.1, refIdsOfRecords g.2) ∈ refBySS :=
        fun g hg => hcov g (List.mem_cons_of_mem _ hg)
      have hcovhd : (ss, refIdsOfRecords recs) ∈ refBySS :=
        hcov (ss, recs) (List.mem_cons_self _ _)
      have hcharc := applyStep_charc f refBySS usageKeys addMissing force labels ss recs
      unfold applyStep at hcharc
      intro p hp q hq hne heq
      rw [applyLoop_cons] at hp hq
      rcases hcharc with ⟨htn, hfeq⟩ | ⟨t, ht, hge, hmono, hhas, hcases, hP⟩
      · rw [htn] at hp hq
        dsimp only at hp hq
        refine ih _ acc hnd2 hcov2 ?_ pre2 pre3 ?_ ?_ p hp q hq hne heq
        · intro p2 hp2
          have : ({ (processGroup f refBySS usageKeys true addMissing false force labels
              ss recs).f with
              groups := updateGroup (processGroup f refBySS usageKeys true addMissing
                false force labels ss recs).f.groups ss
                (processGroup f refBySS usageKeys true addMissing false force labels ss
                  recs).records } : AuditFont).names = f.names := by
            rw [hfeq]
          rw [this]
          exact pre1 p2 hp2
        · intro nid h1 h2
          have hn : ({ (processGroup f refBySS usageKeys true addMissing false force
              labels ss recs).f with
              groups := updateGroup (processGroup f refBySS usageKeys true addMissing
                false force labels ss recs).f.groups ss
                (processGroup f refBySS usageKeys true addMissing false force labels ss
                  recs).records } : AuditFont).names = f.names := by
            rw [hfeq]
          rw [hn] at h1
          exact pre4 nid h1 h2
        · intro p2 hp2 g hg
          exact pre5 p2 hp2 g (List.mem_cons_of_mem _ hg)
      · rw [ht] at hp hq
        dsimp only at hp hq
        rw [List.append_cons] at hp hq
        -- the new accumulator is acc ++ [(ss, t)]
        have hnames : ({ (processGroup f refBySS usageKeys true addMissing false force
            labels ss recs).f with
            groups := updateGroup (processGroup f refBySS usageKeys true addMissing false
              force labels ss recs).f.groups ss
              (processGroup f refBySS usageKeys true addMissing false force labels ss
                recs).records } : AuditFont).names =
            (processGroup f refBySS usageKeys true addMissing false force labels ss
              recs).f.names := rfl
        -- facts about the new pair
        have hnewValid : (t ∈ refIdsOfRecords recs ∧
            has_windows_name_id names0 t = true) ∨
            (noOtherRef refBySS ss t ∧ has_windows_name_id f.names t = false) := by
          rcases hP with ⟨hmemR, hlabF⟩ | ⟨hfresh, hnoother⟩
          · by_cases h0 : has_windows_name_id names0 t = true
            · exact Or.inl ⟨hmemR, h0⟩
            · exfalso
              obtain ⟨s2, hs2mem, hs2no⟩ := pre4 t hlabF (by
                rw [Bool.eq_false_iff]
                exact fun hc => h0 hc)
              have hs2ne : s2 ≠ ss := by
                intro hcontra
                exact pre5 (s2, t) hs2mem (ss, recs) (List.mem_cons_self _ _) hcontra
              exact hs2no (ss, refIdsOfRecords recs) hcovhd (fun hc => hs2ne hc.symm) hmemR
          · exact Or.inr ⟨hnoother, hfresh⟩
        refine ih _ (acc ++ [(ss, t)]) hnd2 hcov2 ?_ ?_ ?_ ?_ ?_ p hp q hq hne heq
        · -- pre1
          intro p2 hp2
          rw [hnames]
          rcases List.mem_append.mp hp2 with h2 | h2
          · exact hmono p2.2 (pre1 p2 h2)
          · simp only [List.mem_singleton] at h2
            subst h2
            exact hhas
        · -- pre2
          intro p2 hp2
          rcases List.mem_append.mp hp2 with h2 | h2
          · exact pre2 p2 h2
          · simp only [List.mem_singleton] at h2
            subst h2
            rcases hnewValid with ⟨hmemR, h0⟩ | ⟨hno, _⟩
            · exact Or.inl ⟨⟨(ss, refIdsOfRecords recs), hcovhd, rfl, hmemR⟩, h0⟩
            · exact Or.inr hno
        · -- pre3
          intro p2 hp2 q2 hq2 hne2 heq2
          rcases List.mem_append.mp hp2 with h2 | h2 <;>
            rcases List.mem_append.mp hq2 with h3 | h3
          · exact pre3 p2 h2 q2 h3 hne2 heq2
          · -- q2 is the new pair
            simp only [List.mem_singleton] at h3
            subst h3
            have hne3 : p2.1 ≠ ss := hne2
            have hpt : p2.2 = t := heq2
            rcases hnewValid with ⟨hmemR, h0⟩ | ⟨_, hfresh⟩
            · have hvp : validSharedR refBySS names0 p2.1 p2.2 := by
                rcases pre2 p2 h2 with hv | hno
                · exact hv
                · exfalso
                  refine hno (ss, refIdsOfRecords recs) hcovhd
                    (fun hc => hne3 hc.symm) ?_
                  rw [hpt]
                  exact hmemR
              exact ⟨hvp, ⟨(ss, refIdsOfRecords recs), hcovhd, rfl, hmemR⟩, h0⟩
            · exfalso
              have hb := pre1 p2 h2
              rw [hpt] at hb
              rw [hb] at hfresh
              cases hfresh
          · -- p2 is the new pair
            simp only [List.mem_singleton] at h2
            subst h2
            have hne3 : ss ≠ q2.1 := hne2
            have hqt : t = q2.2 := heq2
            rcases hnewValid with ⟨hmemR, h0⟩ | ⟨_, hfresh⟩
            · have hvq : validSharedR refBySS names0 q2.1 q2.2 := by
                rcases pre2 q2 h3 with hv | hno
                · exact hv
                · exfalso
                  refine hno (ss, refIdsOfRecords recs) hcovhd
                    (fun hc => hne3 hc) ?_
                  rw [← hqt]
                  exact hmemR
              exact ⟨⟨⟨(ss, refIdsOfRecords recs), hcovhd, rfl, hmemR⟩, h0⟩, hvq⟩
            · exfalso
              have hb := pre1 q2 h3
              rw [← hqt] at hb
              rw [hb] at hfresh
              cases hfresh
          · -- both new: same key, contradiction
            simp only [List.mem_singleton] at h2 h3
            subst h2
            subst h3
            exact absurd rfl hne2
        · -- pre4
          intro nid h1 h2
          rw [hnames] at h1
          rcases hcases nid h1 with h3 | h3
          · obtain ⟨s2, hs2, hno⟩ := pre4 nid h3 h2
            exact ⟨s2, List.mem_append_left _ hs2, hno⟩
          · subst h3
            rcases hnewValid with ⟨hmemR, h0⟩ | ⟨hno, _⟩
            · rcases hP with ⟨_, hlabF⟩ | ⟨hfresh, _⟩
              · obtain ⟨s2, hs2, hno2⟩ := pre4 nid hlabF h2
                exact ⟨s2, List.mem_append_left _ hs2, hno2⟩
              · rw [h0] at h2
                cases h2
            · exact ⟨ss, List.mem_append_right _ (by simp), hno⟩
        · -- pre5
          intro p2 hp2 g hg
          rcases List.mem_append.mp hp2 with h2 | h2
          · exact pre5 p2 h2 g (List.mem_cons_of_mem _ hg)
          · simp only [List.mem_singleton] at h2
            subst h2
            intro hcontra
            apply hssnot
            have hc2 : ss = g.1 := hcontra
            rw [hc2]
            exact List.mem_map.mpr ⟨g, hg, rfl⟩

/-! ## C1 — no duplicate identifiers within one apply-mode run -/

/-- C1: in one apply-mode run of `audit_and_repair_stylistic_sets` over a font
whose group numbers are distinct, the resulting group-to-identifier mapping is
injective except for identifiers both groups already validly shared (referenced
with a bound Windows label) before the run began. -/
theorem c1_no_duplicate_identifiers (f : AuditFont) (addMissing force : Bool)
    (labels : List (Nat × String)) (s1 s2 : Nat) (t : Int)
    (hnd : (f.groups.map Prod.fst).Nodup)
    (h1 : (s1, t) ∈ (applyRun f addMissing force labels).resolved)
    (h2 : (s2, t) ∈ (applyRun f addMissing force labels).resolved)
    (hne : s1 ≠ s2) :
    validShared f s1 t ∧ validShared f s2 t := by
  by_cases h0 : f.groups = []
  · exfalso
    simp only [applyRun, audit_and_repair, if_pos h0] at h1
    cases h1
  · simp only [applyRun, audit_and_repair, if_neg h0] at h1 h2
    have hglnd : ((sortGroups f.groups).map Prod.fst).Nodup :=
      (((sortGroups_perm f.groups).map Prod.fst).nodup_iff).mpr hnd
    have hcov : ∀ g ∈ sortGroups f.groups,
        (g.1, refIdsOfRecords g.2) ∈
          f.groups.map (fun g => (g.1, refIdsOfRecords g.2)) := by
      intro g hg
      exact List.mem_map.mpr ⟨g, (sortGroups_perm f.groups).mem_iff.mp hg, rfl⟩
    have key := applyLoop_c1 (f.groups.map (fun g => (g.1, refIdsOfRecords g.2)))
      (collect_used_name_ids f) addMissing force labels f.names
      (sortGroups f.groups) f [] hglnd hcov
      (by intro p hp; cases hp) (by intro p hp; cases hp)
      (by intro p hp; cases hp)
      (by intro nid ha hb; rw [ha] at hb; cases hb)
      (by intro p hp; cases hp)
    have k1 := key (s1, t) (by simpa using h1) (s2, t) (by simpa using h2) hne rfl
    obtain ⟨⟨hv1, hl1⟩, hv2, hl2⟩ := k1
    obtain ⟨e1, he1, he11, hm1⟩ := hv1
    obtain ⟨g1, hg1, rfl⟩ := List.mem_map.mp he1
    obtain ⟨e2, he2, he21, hm2⟩ := hv2
    obtain ⟨g2, hg2, rfl⟩ := List.mem_map.mp he2
    exact ⟨⟨⟨g1, hg1, he11, hm1⟩, hl1⟩, ⟨g2, hg2, he21, hm2⟩, hl2⟩

theorem c1_no_duplicate_identifiers_witness :
    ((c1_font.groups.map Prod.fst).Nodup ∧
      (1, (300 : Int)) ∈ (applyRun c1_font true false []).resolved ∧
      (2, (300 : Int)) ∈ (applyRun c1_font true false []).resolved ∧
      (1 : Nat) ≠ 2) ∧
    validShared c1_font 1 300 ∧ validShared c1_font 2 300 :=
  ⟨⟨by decide, by decide, by decide, by decide⟩,
    c1_no_duplicate_identifiers c1_font true false [] 1 2 300 (by decide)
      (by decide) (by decide) (by decide)⟩

/-! ## C2 — idempotence machinery -/

theorem get_name_strings_head_isNone {names : List (Int × String)} {t : Int}
    (h : has_windows_name_id names t = true) :
    ((get_name_strings names t).head?).isNone = false := by
  unfold get_name_strings
  unfold has_windows_name_id at h
  rw [List.any_eq_true] at h
  obtain ⟨r, hr, hre⟩ := h
  have hmem : r ∈ names.filter (fun r => r.1 = t) := List.mem_filter.mpr ⟨hr, hre⟩
  cases hf : names.filter (fun r => r.1 = t) with
  | nil => rw [hf] at hmem; cases hmem
  | cons a l => rfl

theorem updParamsRecords_id : ∀ (recs : List SSRecord)
    (g : FeatureParamsSS → FeatureParamsSS),
    (∀ p ∈ recs.filterMap (fun r => r.FeatureParams), g p = p) →
    updParamsRecords recs g = recs := by
  intro recs g
  induction recs with
  | nil => intro _; rfl
  | cons r t ih =>
      intro h
      obtain ⟨fp⟩ := r
      cases fp with
      | none =>
          have ht := ih (fun p hp => h p (by
            simpa [List.filterMap_cons] using hp))
          show (⟨none⟩ : SSRecord) :: updParamsRecords t g = _
          rw [ht]
      | some p0 =>
          have hp0 : g p0 = p0 := h p0 (by simp [List.filterMap_cons])
          have ht := ih (fun p hp => h p (by
            simp only [List.filterMap_cons] at hp ⊢
            exact List.mem_cons_of_mem _ hp))
          show (⟨some (g p0)⟩ : SSRecord) :: updParamsRecords t g = _
          rw [hp0, ht]

theorem refIds_const_aux (t : Int) :
    ∀ (ps : List FeatureParamsSS), (∀ p ∈ ps, p = ⟨0, some t⟩) →
      ps.foldl (fun acc p =>
        match p.UINameID with
        | some nid => if 256 ≤ nid ∧ ¬ acc.contains nid then acc ++ [nid] else acc
        | none => acc) [t] = [t] := by
  intro ps
  induction ps with
  | nil => intro _; rfl
  | cons p rest ih =>
      intro h
      rw [List.foldl_cons, h p (List.mem_cons_self _ _)]
      dsimp only
      rw [if_neg (by simp)]
      exact ih (fun q hq => h q (List.mem_cons_of_mem _ hq))

theorem refIds_const {ps : List FeatureParamsSS} {t : Int} (hne : ps ≠ [])
    (hall : ∀ p ∈ ps, p = ⟨0, some t⟩) (ht : 256 ≤ t) :
    refIdsOfParams ps = [t] := by
  cases ps with
  | nil => exact absurd rfl hne
  | cons p rest =>
      unfold refIdsOfParams
      rw [List.foldl_cons, hall p (List.mem_cons_self _ _)]
      dsimp only
      rw [if_pos ⟨ht, by simp⟩, List.nil_append]
      exact refIds_const_aux t rest (fun q hq => hall q (List.mem_cons_of_mem _ hq))

theorem updateGroup_not_mem {groups : List (Nat × List SSRecord)} {ss : Nat}
    (recs : List SSRecord) (h : ss ∉ groups.map Prod.fst) :
    updateGroup groups ss recs = groups := by
  unfold updateGroup
  have he : groups.map (fun g => if g.1 = ss then (g.1, recs) else g) = groups.map id := by
    apply List.map_congr_left
    intro g hg
    rw [if_neg]
    · rfl
    · intro hc
      exact h (List.mem_map.mpr ⟨g, hg, hc⟩)
  rw [he, List.map_id]

theorem updateGroup_self : ∀ (groups : List (Nat × List SSRecord)) (ss : Nat)
    (recs : List SSRecord), (ss, recs) ∈ groups → (groups.map Prod.fst).Nodup →
    updateGroup groups ss recs = groups := by
  intro groups
  induction groups with
  | nil => intro ss recs h _; cases h
  | cons g gs ih =>
      intro ss recs hmem hnd
      rw [List.map_cons, List.nodup_cons] at hnd
      unfold updateGroup
      rw [List.map_cons]
      by_cases hg : g.1 = ss
      · have hgeq : g = (ss, recs) := by
          rcases List.mem_cons.mp hmem with he | hts
          · exact he.symm
          · exfalso
            apply hnd.1
            rw [hg]
            exact List.mem_map.mpr ⟨(ss, recs), hts, rfl⟩
        subst hgeq
        rw [if_pos hg]
        have hss : ss ∉ gs.map Prod.fst := by
          intro hc
          exact hnd.1 (hg ▸ hc)
        have htail := @updateGroup_not_mem gs ss recs hss
        unfold updateGroup at htail
        rw [htail]
      · rw [if_neg hg]
        have hts : (ss, recs) ∈ gs := by
          rcases List.mem_cons.mp hmem with he | hts
          · exfalso
            apply hg
            rw [← he]
          · exact hts
        have hrec := ih ss recs hts hnd.2
        unfold updateGroup at hrec
        rw [hrec]

theorem updateGroup_map_fst (groups : List (Nat × List SSRecord)) (ss : Nat)
    (recs : List SSRecord) :
    (updateGroup groups ss recs).map Prod.fst = groups.map Prod.fst := by
  unfold updateGroup
  rw [List.map_map]
  apply List.map_congr_left
  intro g _
  by_cases hg : g.1 = ss <;> simp [hg]

theorem ensure_label_f_groups (f : AuditFont) (ss : Nat) (nid : Int)
    (labels : List (Nat × String)) (fix : Bool) :
    ((ensure_label f ss nid labels fix).1).groups = f.groups ∧
    ((ensure_label f ss nid labels fix).1).otherUsedIds = f.otherUsedIds := by
  unfold ensure_label
  split
  · dsimp only
    split <;> exact ⟨rfl, rfl⟩
  · exact ⟨rfl, rfl⟩

theorem resolveStep3_f_groups (f : AuditFont) (refBySS : List (Nat × List Int))
    (usageKeys : List Int) (ss : Nat) (labels : List (Nat × String))
    (pretend fix : Bool) (pre : List RLine) (flagged : Bool) :
    (resolveStep3 f refBySS usageKeys ss labels pretend fix pre flagged).f.groups
        = f.groups ∧
    (resolveStep3 f refBySS usageKeys ss labels pretend fix pre flagged).f.otherUsedIds
        = f.otherUsedIds := by
  unfold resolveStep3
  dsimp only
  split <;> exact ⟨rfl, rfl⟩

theorem resolve_f_groups (f : AuditFont) (refBySS : List (Nat × List Int))
    (usageKeys : List Int) (ss : Nat) (params : List FeatureParamsSS)
    (labels : List (Nat × String)) (pretend fix : Bool) :
    (resolve f refBySS usageKeys ss params labels pretend fix).f.groups = f.groups ∧
    (resolve f refBySS usageKeys ss params labels pretend fix).f.otherUsedIds
        = f.otherUsedIds := by
  unfold resolve
  dsimp only
  split
  · exact ⟨rfl, rfl⟩
  · split
    · split
      · exact resolveStep3_f_groups _ _ _ _ _ _ _ _ _
      · split
        · obtain ⟨hg, ho⟩ := ensure_label_f_groups f ss _ labels fix
          cases he : ensure_label f ss _ labels fix with
          | mk f2 rest =>
              rw [he] at hg ho
              exact ⟨hg, ho⟩
        · exact ⟨rfl, rfl⟩
    · exact resolveStep3_f_groups _ _ _ _ _ _ _ _ _

theorem overwrite_label_f_groups (f : AuditFont) (target : Option Int) (ss : Nat)
    (labels : List (Nat × String)) (ow fix : Bool) :
    ((overwrite_label f target ss labels ow fix).1).groups = f.groups ∧
    ((overwrite_label f target ss labels ow fix).1).otherUsedIds = f.otherUsedIds := by
  unfold overwrite_label
  split
  · dsimp only
    repeat' split
    all_goals exact ⟨rfl, rfl⟩
  · exact ⟨rfl, rfl⟩

theorem applyStep_f_groups (f : AuditFont) (refBySS : List (Nat × List Int))
    (usageKeys : List Int) (addMissing force : Bool) (labels : List (Nat × String))
    (ss : Nat) (recs : List SSRecord) :
    (applyStep f refBySS usageKeys addMissing force labels ss recs).f.groups
      = f.groups := by
  unfold applyStep processGroup
  dsimp only
  split
  · rfl
  · obtain ⟨hr, _⟩ := resolve_f_groups f refBySS usageKeys ss _ labels false true
    obtain ⟨ho, _⟩ := overwrite_label_f_groups
      (resolve f refBySS usageKeys ss _ labels false true).f
      (resolve f refBySS usageKeys ss _ labels false true).target ss labels force true
    rw [ho, hr]

theorem applyStep_names_mono (f : AuditFont) (refBySS : List (Nat × List Int))
    (usageKeys : List Int) (addMissing force : Bool) (labels : List (Nat × String))
    (ss : Nat) (recs : List SSRecord) (nid : Int)
    (h : has_windows_name_id f.names nid = true) :
    has_windows_name_id
      (applyStep f refBySS usageKeys addMissing force labels ss recs).f.names nid
        = true := by
  rcases applyStep_charc f refBySS usageKeys addMissing force labels ss recs with
    ⟨_, hf⟩ | ⟨t, _, _, hmono, _, _, _⟩
  · rw [hf]; exact h
  · exact hmono nid h

theorem ensure_nochange (recs : List SSRecord) (ss : Nat) (addMissing : Bool)
    (h : addMissing = true → ∀ r ∈ recs, r.FeatureParams.isSome = true) :
    (ensure_feature_params recs ss true addMissing false).records = recs ∧
    (ensure_feature_params recs ss true addMissing false).params =
      recs.filterMap (fun r => r.FeatureParams) ∧
    (ensure_feature_params recs ss true addMissing false).changed = false ∧
    ∀ l ∈ (ensure_feature_params recs ss true addMissing false).lines,
      isSecondRunLine l = true := by
  have hnca : ¬((true = true) ∧ addMissing = true ∧
      0 < (recs.filter (fun r => r.FeatureParams.isNone)).length) := by
    rintro ⟨-, ham, hm⟩
    have hz : recs.filter (fun r => r.FeatureParams.isNone) = [] := by
      rw [List.filter_eq_nil_iff]
      intro r hr
      have hs := h ham r hr
      cases ho : r.FeatureParams with
      | none => rw [ho] at hs; cases hs
      | some v => simp
    rw [hz] at hm
    cases hm
  unfold ensure_feature_params
  dsimp only
  rw [if_neg hnca, if_neg hnca]
  refine ⟨rfl, rfl, decide_eq_false hnca, ?_⟩
  intro l hl
  rw [List.mem_append] at hl
  rcases hl with hl | hl
  · revert hl
    split
    · intro hl
      rw [List.mem_singleton] at hl
      subst hl
      rfl
    · intro hl
      cases hl
  · revert hl
    split
    · intro hl
      rw [List.mem_singleton] at hl
      subst hl
      rename_i hcond
      exact absurd hcond (by simp)
    · intro hl
      cases hl

theorem normalize_nochange (recs : List SSRecord) (ss : Nat)
    (h : ∀ p ∈ recs.filterMap (fun r => r.FeatureParams), p.Version = 0) :
    (normalize_versions recs ss true).1 = recs ∧
    (normalize_versions recs ss true).2.1 = [] ∧
    (normalize_versions recs ss true).2.2 = false := by
  unfold normalize_versions
  dsimp only
  rw [if_pos rfl]
  refine ⟨?_, ?_, ?_⟩
  · apply updParamsRecords_id
    intro p hp
    rw [if_neg]
    intro hc
    exact hc (h p hp)
  · rw [List.filterMap_eq_nil_iff]
    intro p hp
    rw [if_neg]
    intro hc
    exact hc (h p hp)
  · rw [Bool.true_and, List.any_eq_false]
    intro p hp
    simp [h p hp]

theorem resolve_adopt (f : AuditFont) (refBySS : List (Nat × List Int))
    (usageKeys : List Int) (ss : Nat) (params : List FeatureParamsSS)
    (labels : List (Nat × String)) {t : Int}
    (hne : params ≠ []) (hall : ∀ p ∈ params, p = ⟨0, some t⟩) (hge : 256 ≤ t)
    (hhas : has_windows_name_id f.names t = true) :
    resolve f refBySS usageKeys ss params labels false true =
      ⟨some t, f, [], false, false, false⟩ := by
  unfold resolve
  dsimp only
  rw [refIds_const hne hall hge]
  rw [show List.filter (fun nid => has_windows_name_id f.names nid) [t] = [t] from by
    simp [hhas]]
  rfl

theorem overwrite_label_noforce (f : AuditFont) (t : Int) (ss : Nat)
    (labels : List (Nat × String)) (h : has_windows_name_id f.names t = true) :
    overwrite_label f (some t) ss labels false true = (f, false, []) := by
  unfold overwrite_label
  cases hl : lookupLabel labels ss with
  | none => rfl
  | some desired =>
      dsimp only
      rw [get_name_strings_head_isNone h]
      rw [if_neg (by simp)]

theorem apply_target_unchanged (f : AuditFont) (records : List SSRecord) (t : Int)
    (ss : Nat) (labels : List (Nat × String))
    (hall : ∀ p ∈ records.filterMap (fun r => r.FeatureParams), p.UINameID = some t) :
    ∃ ns, apply_target_id f records (some t) ss true false labels =
      ⟨records, [RLine.unchangedLine ss t ns
        (records.filterMap (fun r => r.FeatureParams)).length], false, false⟩ := by
  unfold apply_target_id
  dsimp only
  have hcl : (records.filterMap (fun r => r.FeatureParams)).filter
      (fun p => p.UINameID ≠ some t) = [] := by
    rw [List.filter_eq_nil_iff]
    intro p hp
    simp [hall p hp]
  rw [hcl]
  rw [if_neg (by simp)]
  exact ⟨_, rfl⟩

/-- An apply-mode step leaves a normal-form group (and the font) untouched and
reports only second-run lines. -/
theorem applyStep_NF (f : AuditFont) (refBySS : List (Nat × List Int))
    (usageKeys : List Int) (addMissing : Bool) (labels : List (Nat × String))
    (ss : Nat) (recs : List SSRecord)
    (hnf : NFGroupA addMissing f.names recs) :
    (applyStep f refBySS usageKeys addMissing false labels ss recs).f = f ∧
    (applyStep f refBySS usageKeys addMissing false labels ss recs).records = recs ∧
    (applyStep f refBySS usageKeys addMissing false labels ss recs).changed = false ∧
    (applyStep f refBySS usageKeys addMissing false labels ss recs).flagged = false ∧
    ∀ l ∈ (applyStep f refBySS usageKeys addMissing false labels ss recs).lines,
      isSecondRunLine l = true := by
  rcases hnf with ⟨hfm, ham⟩ | ⟨t, hge, hfmne, hall, hhas, hsome⟩
  · obtain ⟨her, hep, hec, hel⟩ := ensure_nochange recs ss addMissing (by
      intro ha r hr
      rw [ham ha] at hr
      cases hr)
    have hcond : (ensure_feature_params recs ss true addMissing false).params = [] := by
      rw [hep, hfm]
    unfold applyStep processGroup
    rw [if_pos hcond]
    exact ⟨rfl, her, hec, rfl, hel⟩
  · obtain ⟨her, hep, hec, hel⟩ := ensure_nochange recs ss addMissing hsome
    have hvers : ∀ p ∈ recs.filterMap (fun r => r.FeatureParams), p.Version = 0 := by
      intro p hp; rw [hall p hp]
    obtain ⟨hn1, hn2, hn3⟩ := normalize_nochange recs ss hvers
    have huin : ∀ p ∈ recs.filterMap (fun r => r.FeatureParams),
        p.UINameID = some t := by
      intro p hp; rw [hall p hp]
    have hres := resolve_adopt f refBySS usageKeys ss
      (recs.filterMap (fun r => r.FeatureParams)) labels hfmne hall hge hhas
    have hol := overwrite_label_noforce f t ss labels hhas
    obtain ⟨ns, hap⟩ := apply_target_unchanged f recs t ss labels huin
    have hcond : ¬((ensure_feature_params recs ss true addMissing false).params = []) := by
      rw [hep]
      exact hfmne
    unfold applyStep processGroup
    rw [if_neg hcond]
    dsimp only
    rw [her, hn1, hres]
    dsimp only
    rw [hol]
    dsimp only
    rw [hap]
    refine ⟨rfl, rfl, ?_, rfl, ?_⟩
    · rw [hec, hn3]
      rfl
    · intro l hl
      dsimp only at hl
      rw [hn2] at hl
      simp only [List.append_nil, List.nil_append, List.mem_append,
        List.mem_singleton] at hl
      rcases hl with hl | hl
      · exact hel l hl
      · subst hl
        rfl

theorem fps_eta {p : FeatureParamsSS} {t : Int} (h1 : p.Version = 0)
    (h2 : p.UINameID = some t) : p = ⟨0, some t⟩ := by
  cases p
  dsimp only at h1 h2
  rw [h1, h2]

theorem ensure_params_eq (recs : List SSRecord) (ss : Nat)
    (fix addMissing pretend : Bool) :
    (ensure_feature_params recs ss fix addMissing pretend).params =
      (ensure_feature_params recs ss fix addMissing pretend).records.filterMap
        (fun r => r.FeatureParams) := rfl

theorem filterMap_params_nil : ∀ (l : List SSRecord),
    l.filterMap (fun r => r.FeatureParams) = [] →
    (∀ r ∈ l, r.FeatureParams.isSome = true) → l = [] := by
  intro l hfm hsome
  cases l with
  | nil => rfl
  | cons r t =>
      exfalso
      have hs := hsome r (List.mem_cons_self _ _)
      cases ho : r.FeatureParams with
      | none => rw [ho] at hs; cases hs
      | some v =>
          rw [List.filterMap_cons, ho] at hfm
          cases hfm

theorem ensure_records_isSome (recs : List SSRecord) (ss : Nat) :
    ∀ r ∈ (ensure_feature_params recs ss true true false).records,
      r.FeatureParams.isSome = true := by
  unfold ensure_feature_params
  dsimp only
  by_cases hm : 0 < (recs.filter (fun r => r.FeatureParams.isNone)).length
  · rw [if_pos ⟨rfl, rfl, hm⟩]
    intro r hr
    obtain ⟨r0, hr0, hre⟩ := List.mem_map.mp hr
    by_cases hn : r0.FeatureParams.isNone = true
    · rw [if_pos hn] at hre
      rw [← hre]
      rfl
    · rw [if_neg hn] at hre
      rw [← hre]
      cases ho : r0.FeatureParams with
      | none => exfalso; apply hn; rw [ho]; rfl
      | some v => rfl
  · rw [if_neg (by rintro ⟨-, -, hc⟩; exact hm hc)]
    intro r hr
    cases ho : r.FeatureParams with
    | some v => rfl
    | none =>
        exfalso
        apply hm
        have hmem : r ∈ recs.filter (fun r => r.FeatureParams.isNone) :=
          List.mem_filter.mpr ⟨hr, by rw [ho]; rfl⟩
        cases hq : recs.filter (fun r => r.FeatureParams.isNone) with
        | nil => rw [hq] at hmem; cases hmem
        | cons a l => simp

theorem updParamsRecords_isSome (recs : List SSRecord)
    (g : FeatureParamsSS → FeatureParamsSS)
    (h : ∀ r ∈ recs, r.FeatureParams.isSome = true) :
    ∀ r ∈ updParamsRecords recs g, r.FeatureParams.isSome = true := by
  intro r hr
  obtain ⟨r0, hr0, hre⟩ := List.mem_map.mp hr
  have hs := h r0 hr0
  cases ho : r0.FeatureParams with
  | none => rw [ho] at hs; cases hs
  | some p =>
      rw [ho] at hre
      rw [← hre]
      rfl

theorem normalize_params_version (recs : List SSRecord) (ss : Nat) :
    ∀ p ∈ (normalize_versions recs ss true).1.filterMap (fun r => r.FeatureParams),
      p.Version = 0 := by
  unfold normalize_versions
  dsimp only
  rw [if_pos rfl, updParamsRecords_filterMap]
  intro p hp
  obtain ⟨q, hq, hqe⟩ := List.mem_map.mp hp
  rw [← hqe]
  by_cases hv : q.Version ≠ 0
  · rw [if_pos hv]
  · rw [if_neg hv]
    exact not_ne_iff.mp hv

theorem normalize_records_isSome (recs : List SSRecord) (ss : Nat)
    (h : ∀ r ∈ recs, r.FeatureParams.isSome = true) :
    ∀ r ∈ (normalize_versions recs ss true).1, r.FeatureParams.isSome = true := by
  unfold normalize_versions
  dsimp only
  rw [if_pos rfl]
  exact updParamsRecords_isSome recs _ h

theorem normalize_params_length (recs : List SSRecord) (ss : Nat) :
    ((normalize_versions recs ss true).1.filterMap (fun r => r.FeatureParams)).length =
      (recs.filterMap (fun r => r.FeatureParams)).length := by
  unfold normalize_versions
  dsimp only
  rw [if_pos rfl, updParamsRecords_filterMap, List.length_map]

theorem apply_target_records_facts (f2 : AuditFont) (records : List SSRecord)
    (t : Int) (ss : Nat) (labels : List (Nat × String))
    (hver : ∀ p ∈ records.filterMap (fun r => r.FeatureParams), p.Version = 0) :
    (∀ p ∈ (apply_target_id f2 records (some t) ss true false labels).records.filterMap
        (fun r => r.FeatureParams), p = ⟨0, some t⟩) ∧
    ((apply_target_id f2 records (some t) ss true false labels).records.filterMap
        (fun r => r.FeatureParams)).length =
      (records.filterMap (fun r => r.FeatureParams)).length ∧
    ((∀ r ∈ records, r.FeatureParams.isSome = true) →
      ∀ r ∈ (apply_target_id f2 records (some t) ss true false labels).records,
        r.FeatureParams.isSome = true) := by
  unfold apply_target_id
  dsimp only
  by_cases hch : ((records.filterMap (fun r => r.FeatureParams)).filter
      (fun p => p.UINameID ≠ some t)).length ≠ 0
  · rw [if_pos hch]
    dsimp only
    simp only [Bool.not_false, Bool.true_and, if_true]
    refine ⟨?_, ?_, ?_⟩
    · rw [updParamsRecords_filterMap]
      intro p hp
      obtain ⟨q, hq, hqe⟩ := List.mem_map.mp hp
      rw [← hqe]
      by_cases hu : q.UINameID ≠ some t
      · rw [if_pos hu]
        exact fps_eta (hver q hq) rfl
      · rw [if_neg hu]
        exact fps_eta (hver q hq) (not_ne_iff.mp hu)
    · rw [updParamsRecords_filterMap, List.length_map]
    · exact fun h => updParamsRecords_isSome records _ h
  · rw [if_neg hch]
    dsimp only
    have hall : ∀ p ∈ records.filterMap (fun r => r.FeatureParams),
        p.UINameID = some t := by
      have hz : (records.filterMap (fun r => r.FeatureParams)).filter
          (fun p => p.UINameID ≠ some t) = [] :=
        List.length_eq_zero.mp (not_ne_iff.mp hch)
      intro p hp
      by_contra hc
      have hmem : p ∈ (records.filterMap (fun r => r.FeatureParams)).filter
          (fun p => p.UINameID ≠ some t) :=
        List.mem_filter.mpr ⟨hp, by simpa using hc⟩
      rw [hz] at hmem
      cases hmem
    exact ⟨fun p hp => fps_eta (hver p hp) (hall p hp), rfl, fun h => h⟩

/-- An apply-mode step always leaves the processed group in normal form
relative to the step's resulting name table. -/
theorem applyStep_post_NF (f : AuditFont) (refBySS : List (Nat × List Int))
    (usageKeys : List Int) (addMissing force : Bool) (labels : List (Nat × String))
    (ss : Nat) (recs : List SSRecord) :
    NFGroupA addMissing
      (applyStep f refBySS usageKeys addMissing force labels ss recs).f.names
      (applyStep f refBySS usageKeys addMissing force labels ss recs).records := by
  unfold applyStep processGroup
  by_cases hp : (ensure_feature_params recs ss true addMissing false).params = []
  · rw [if_pos hp]
    dsimp only
    left
    constructor
    · rw [← ensure_params_eq]
      exact hp
    · intro ham
      subst ham
      apply filterMap_params_nil
      · rw [← ensure_params_eq]
        exact hp
      · exact ensure_records_isSome recs ss
  · rw [if_neg hp]
    dsimp only
    obtain ⟨t, htgt, hge, hmonoR, hhasR, hcs, hP⟩ := resolve_charc f refBySS usageKeys ss
      ((normalize_versions (ensure_feature_params recs ss true addMissing false).records
        ss true).1.filterMap (fun r => r.FeatureParams)) labels
    rw [htgt]
    obtain ⟨hmonoO, hcasesO⟩ := overwrite_label_names_facts
      (resolve f refBySS usageKeys ss
        ((normalize_versions (ensure_feature_params recs ss true addMissing
          false).records ss true).1.filterMap (fun r => r.FeatureParams)) labels false
          true).f t ss labels force
    obtain ⟨hallA, hlenA, hsomeA⟩ := apply_target_records_facts
      ((overwrite_label (resolve f refBySS usageKeys ss
        ((normalize_versions (ensure_feature_params recs ss true addMissing
          false).records ss true).1.filterMap (fun r => r.FeatureParams)) labels false
          true).f (some t) ss labels force true).1)
      ((normalize_versions (ensure_feature_params recs ss true addMissing false).records
        ss true).1) t ss labels
      (normalize_params_version (ensure_feature_params recs ss true addMissing
        false).records ss)
    right
    refine ⟨t, hge, ?_, hallA, hmonoO t hhasR, ?_⟩
    · intro hcontra
      apply hp
      rw [ensure_params_eq]
      apply List.length_eq_zero.mp
      rw [← normalize_params_length (ensure_feature_params recs ss true addMissing
        false).records ss]
      rw [← hlenA, hcontra]
      rfl
    · intro ham
      subst ham
      exact hsomeA (normalize_records_isSome _ ss (ensure_records_isSome recs ss))

theorem NFGroupA_mono {am : Bool} {names1 names2 : List (Int × String)}
    {recs : List SSRecord}
    (hm : ∀ nid, has_windows_name_id names1 nid = true →
      has_windows_name_id names2 nid = true)
    (h : NFGroupA am names1 recs) : NFGroupA am names2 recs := by
  rcases h with h | ⟨t, hge, hne, hall, hhas, hsome⟩
  · exact Or.inl h
  · exact Or.inr ⟨t, hge, hne, hall, hm t hhas, hsome⟩

/-- An apply-mode run leaves every group in normal form relative to the final
name table; it preserves the group-number list and only grows the name table. -/
theorem applyLoop_post_NF (refBySS : List (Nat × List Int)) (usageKeys : List Int)
    (addMissing force : Bool) (labels : List (Nat × String)) :
    ∀ (gl : List (Nat × List SSRecord)) (f : AuditFont),
      (∀ g ∈ f.groups, g.1 ∉ gl.map Prod.fst → NFGroupA addMissing f.names g.2) →
      (∀ g ∈ (applyLoop refBySS usageKeys addMissing force labels gl f).f.groups,
        NFGroupA addMissing
          (applyLoop refBySS usageKeys addMissing force labels gl f).f.names g.2) ∧
      (applyLoop refBySS usageKeys addMissing force labels gl f).f.groups.map Prod.fst
        = f.groups.map Prod.fst ∧
      (∀ nid, has_windows_name_id f.names nid = true →
        has_windows_name_id
          (applyLoop refBySS usageKeys addMissing force labels gl f).f.names nid
            = true) := by
  intro gl
  induction gl with
  | nil =>
      intro f hnf
      refine ⟨?_, rfl, fun nid h => h⟩
      intro g hg
      exact hnf g hg (by simp)
  | cons hd gl2 ih =>
      obtain ⟨ss, recs⟩ := hd
      intro f hnf
      rw [applyLoop_cons]
      dsimp only
      have hgroups := applyStep_f_groups f refBySS usageKeys addMissing force labels
        ss recs
      unfold applyStep at hgroups
      have hpost := applyStep_post_NF f refBySS usageKeys addMissing force labels ss recs
      unfold applyStep at hpost
      have hmono : ∀ nid, has_windows_name_id f.names nid = true →
          has_windows_name_id (processGroup f refBySS usageKeys true addMissing false
            force labels ss recs).f.names nid = true := by
        intro nid h
        have := applyStep_names_mono f refBySS usageKeys addMissing force labels ss
          recs nid h
        unfold applyStep at this
        exact this
      have hpre2 : ∀ g ∈ ({ (processGroup f refBySS usageKeys true addMissing false
          force labels ss recs).f with
          groups := updateGroup (processGroup f refBySS usageKeys true addMissing false
            force labels ss recs).f.groups ss
            (processGroup f refBySS usageKeys true addMissing false force labels ss
              recs).records } : AuditFont).groups,
          g.1 ∉ gl2.map Prod.fst →
          NFGroupA addMissing ({ (processGroup f refBySS usageKeys true addMissing false
            force labels ss recs).f with
            groups := updateGroup (processGroup f refBySS usageKeys true addMissing
              false force labels ss recs).f.groups ss
              (processGroup f refBySS usageKeys true addMissing false force labels ss
                recs).records } : AuditFont).names g.2 := by
        intro g hg hnot
        have hg2 : g ∈ updateGroup f.groups ss
            (processGroup f refBySS usageKeys true addMissing false force labels ss
              recs).records := by
          rw [← hgroups]
          exact hg
        unfold updateGroup at hg2
        obtain ⟨g0, hg0, hge⟩ := List.mem_map.mp hg2
        by_cases hk : g0.1 = ss
        · rw [if_pos hk] at hge
          rw [← hge]
          exact hpost
        · rw [if_neg hk] at hge
          subst hge
          refine NFGroupA_mono hmono (hnf g0 hg0 ?_)
          rw [List.map_cons, List.mem_cons]
          rintro (hc | hc)
          · exact hk hc
          · exact hnot hc
      obtain ⟨ihNF, ihkeys, ihmono⟩ := ih _ hpre2
      refine ⟨ihNF, ?_, ?_⟩
      · rw [ihkeys]
        dsimp only
        rw [updateGroup_map_fst, hgroups]
      · intro nid h
        exact ihmono nid (hmono nid h)

/-- On a font whose every group is in normal form, a second apply-mode run
without `overwrite_labels` changes nothing and reports only second-run lines. -/
theorem applyLoop_NF_id (refBySS : List (Nat × List Int)) (usageKeys : List Int)
    (addMissing : Bool) (labels : List (Nat × String)) :
    ∀ (gl : List (Nat × List SSRecord)) (f : AuditFont),
      (f.groups.map Prod.fst).Nodup →
      (∀ p ∈ gl, p ∈ f.groups) →
      (∀ g ∈ f.groups, NFGroupA addMissing f.names g.2) →
      (applyLoop refBySS usageKeys addMissing false labels gl f).f = f ∧
      (applyLoop refBySS usageKeys addMissing false labels gl f).changed = false ∧
      (applyLoop refBySS usageKeys addMissing false labels gl f).flagged = false ∧
      ∀ l ∈ (applyLoop refBySS usageKeys addMissing false labels gl f).report,
        isSecondRunLine l = true := by
  intro gl
  induction gl with
  | nil =>
      intro f _ _ _
      refine ⟨rfl, rfl, rfl, ?_⟩
      intro l hl
      simp only [applyLoop, auditLoop] at hl
      cases hl
  | cons hd gl2 ih =>
      obtain ⟨ss, recs⟩ := hd
      intro f hnd hsub hnf
      have hmem : (ss, recs) ∈ f.groups := hsub _ (List.mem_cons_self _ _)
      obtain ⟨hsf, hsrec, hschg, hsflag, hslines⟩ :=
        applyStep_NF f refBySS usageKeys addMissing labels ss recs (hnf _ hmem)
      unfold applyStep at hsf hsrec hschg hsflag hslines
      rw [applyLoop_cons]
      dsimp only
      have hf2 : ({ (processGroup f refBySS usageKeys true addMissing false false labels
          ss recs).f with
          groups := updateGroup (processGroup f refBySS usageKeys true addMissing false
            false labels ss recs).f.groups ss
            (processGroup f refBySS usageKeys true addMissing false false labels ss
              recs).records } : AuditFont) = f := by
        rw [hsf, hsrec, updateGroup_self f.groups ss recs hmem hnd]
      rw [hf2]
      obtain ⟨hrf, hrchg, hrflag, hrlines⟩ := ih f hnd
        (fun p hp => hsub p (List.mem_cons_of_mem _ hp)) hnf
      refine ⟨hrf, ?_, ?_, ?_⟩
      · rw [hschg, hrchg]
        rfl
      · rw [hsflag, hrflag]
        rfl
      · intro l hl
        rw [List.mem_append] at hl
        rcases hl with hl | hl
        · exact hslines l hl
        · exact hrlines l hl

theorem applyRun_fields (f : AuditFont) (addMissing force : Bool)
    (labels : List (Nat × String)) (h0 : ¬(f.groups = [])) :
    applyRun f addMissing force labels =
      ⟨(applyLoop (f.groups.map (fun g => (g.1, refIdsOfRecords g.2)))
          (collect_used_name_ids f) addMissing force labels (sortGroups f.groups) f).f,
        (applyLoop (f.groups.map (fun g => (g.1, refIdsOfRecords g.2)))
          (collect_used_name_ids f) addMissing force labels (sortGroups
            f.groups) f).report,
        (applyLoop (f.groups.map (fun g => (g.1, refIdsOfRecords g.2)))
          (collect_used_name_ids f) addMissing force labels (sortGroups
            f.groups) f).changed,
        (applyLoop (f.groups.map (fun g => (g.1, refIdsOfRecords g.2)))
          (collect_used_name_ids f) addMissing force labels (sortGroups
            f.groups) f).flagged,
        (applyLoop (f.groups.map (fun g => (g.1, refIdsOfRecords g.2)))
          (collect_used_name_ids f) addMissing force labels (sortGroups
            f.groups) f).resolved⟩ := by
  unfold applyRun audit_and_repair applyLoop
  rw [if_neg h0]
  rfl

/-- C2: the claim is false on the code for arbitrary inputs.  With
`overwrite_labels` enabled and per-group caller labels on a shared labelled
identifier, the second apply-mode run again emits UPDATED lines and reports
the font changed, so the run is not idempotent. -/
theorem c2_counterexample :
    ((applyRun (applyRun c2_font true true [(1, "L1"), (2, "L2")]).f
        true true [(1, "L1"), (2, "L2")]).report.any isCreatedOrUpdated = true) ∧
    (applyRun (applyRun c2_font true true [(1, "L1"), (2, "L2")]).f
        true true [(1, "L1"), (2, "L2")]).changed = true := by
  constructor
  · decide
  · decide

/-- C2 amended: with `overwrite_labels` disabled, a second apply-mode run on a
font with distinct group numbers is the identity: same font state, no changes,
no flags, and every report line is an UNCHANGED / repeated-informational
second-run line. -/
theorem c2_amended (f : AuditFont) (addMissing : Bool) (labels : List (Nat × String))
    (hnd : (f.groups.map Prod.fst).Nodup) :
    (applyRun (applyRun f addMissing false labels).f addMissing false labels).f =
      (applyRun f addMissing false labels).f ∧
    (applyRun (applyRun f addMissing false labels).f addMissing false labels).changed
      = false ∧
    (applyRun (applyRun f addMissing false labels).f addMissing false labels).flagged
      = false ∧
    ∀ l ∈ (applyRun (applyRun f addMissing false labels).f addMissing false
        labels).report, isSecondRunLine l = true := by
  by_cases h0 : f.groups = []
  · have hr1 : applyRun f addMissing false labels =
        ⟨f, [RLine.noGroups], false, false, []⟩ := by
      unfold applyRun audit_and_repair
      rw [if_pos h0]
    rw [hr1]
    dsimp only
    rw [hr1]
    refine ⟨rfl, rfl, rfl, ?_⟩
    intro l hl
    rw [List.mem_singleton] at hl
    subst hl
    rfl
  · have h1 := applyRun_fields f addMissing false labels h0
    have hpre : ∀ g ∈ f.groups, g.1 ∉ (sortGroups f.groups).map Prod.fst →
        NFGroupA addMissing f.names g.2 := by
      intro g hg hnot
      exact absurd (((sortGroups_perm f.groups).map Prod.fst).mem_iff.mpr
        (List.mem_map.mpr ⟨g, hg, rfl⟩)) hnot
    obtain ⟨hNF1, hkeys1, -⟩ := applyLoop_post_NF
      (f.groups.map (fun g => (g.1, refIdsOfRecords g.2))) (collect_used_name_ids f)
      addMissing false labels (sortGroups f.groups) f hpre
    rw [h1]
    dsimp only
    have h0b : ¬((applyLoop (f.groups.map (fun g => (g.1, refIdsOfRecords g.2)))
        (collect_used_name_ids f) addMissing false labels (sortGroups f.groups)
        f).f.groups = []) := by
      intro hc
      apply h0
      rw [hc] at hkeys1
      exact List.map_eq_nil_iff.mp hkeys1.symm
    have h2 := applyRun_fields ((applyLoop (f.groups.map (fun g => (g.1,
      refIdsOfRecords g.2))) (collect_used_name_ids f) addMissing false labels
      (sortGroups f.groups) f).f) addMissing false labels h0b
    rw [h2]
    dsimp only
    have hnd2 : (((applyLoop (f.groups.map (fun g => (g.1, refIdsOfRecords g.2)))
        (collect_used_name_ids f) addMissing false labels (sortGroups f.groups)
        f).f).groups.map Prod.fst).Nodup := by
      rw [hkeys1]
      exact hnd
    have hsub2 : ∀ p ∈ sortGroups ((applyLoop (f.groups.map (fun g => (g.1,
        refIdsOfRecords g.2))) (collect_used_name_ids f) addMissing false labels
        (sortGroups f.groups) f).f).groups,
        p ∈ ((applyLoop (f.groups.map (fun g => (g.1, refIdsOfRecords g.2)))
          (collect_used_name_ids f) addMissing false labels (sortGroups f.groups)
          f).f).groups :=
      fun p hp => (sortGroups_perm _).mem_iff.mp hp
    obtain ⟨hf2, hchg2, hflag2, hlines2⟩ := applyLoop_NF_id
      ((((applyLoop (f.groups.map (fun g => (g.1, refIdsOfRecords g.2)))
        (collect_used_name_ids f) addMissing false labels (sortGroups f.groups)
        f).f).groups).map (fun g => (g.1, refIdsOfRecords g.2)))
      (collect_used_name_ids ((applyLoop (f.groups.map (fun g => (g.1,
        refIdsOfRecords g.2))) (collect_used_name_ids f) addMissing false labels
        (sortGroups f.groups) f).f))
      addMissing labels
      (sortGroups (((applyLoop (f.groups.map (fun g => (g.1, refIdsOfRecords g.2)))
        (collect_used_name_ids f) addMissing false labels (sortGroups f.groups)
        f).f).groups))
      ((applyLoop (f.groups.map (fun g => (g.1, refIdsOfRecords g.2)))
        (collect_used_name_ids f) addMissing false labels (sortGroups f.groups) f).f)
      hnd2 hsub2 hNF1
    exact ⟨hf2, hchg2, hflag2, hlines2⟩

theorem c2_amended_witness :
    (c2_font.groups.map Prod.fst).Nodup ∧
    ((applyRun (applyRun c2_font true false [(1, "L1"), (2, "L2")]).f true false
        [(1, "L1"), (2, "L2")]).f =
      (applyRun c2_font true false [(1, "L1"), (2, "L2")]).f ∧
    (applyRun (applyRun c2_font true false [(1, "L1"), (2, "L2")]).f true false
        [(1, "L1"), (2, "L2")]).changed = false ∧
    (applyRun (applyRun c2_font true false [(1, "L1"), (2, "L2")]).f true false
        [(1, "L1"), (2, "L2")]).flagged = false ∧
    ∀ l ∈ (applyRun (applyRun c2_font true false [(1, "L1"), (2, "L2")]).f true false
        [(1, "L1"), (2, "L2")]).report, isSecondRunLine l = true) :=
  ⟨by decide, c2_amended c2_font true [(1, "L1"), (2, "L2")] (by decide)⟩

end OTTools